import Mathlib

/-!
Verification of the `stactools.ukcp18` STAC-generation module
(`src/stactools/ukcp18/stac.py`).

The development shallowly embeds the module:

* Filenames and other Python strings handled by the identity parser are
  `List Char`.
* `_xpr` (the compiled regular expression) is embedded as a small
  backtracking matcher built from combinators that mirror Python `re`
  semantics for the concrete pattern: `re.match` anchors at the start of
  the string only (trailing characters are accepted), `+` quantifiers are
  greedy with backtracking (longest capture tried first), `\w` is a word
  character, `\d` a digit, `[^_]` any non-underscore character and `.`
  any character except a newline.  We restrict `\w`/`\d` to ASCII.
* `datetime.datetime.strptime(s, "%Y%m%d")` on the 8-digit capture groups
  is embedded by `strptime8`: CPython's `_strptime` regex for `%Y` is
  exactly four digits and the month/day patterns consume two digits each
  on an 8-character input (a 1-digit month or day would leave unconverted
  data, which raises), so an 8-digit string parses iff the first four
  digits give a year in 1..9999 (year 0 is rejected by the `datetime`
  constructor), the next two a month in 1..12 and the last two a day in
  1..daysInMonth (proleptic Gregorian calendar).  All datetimes built by
  this program are at midnight, so the embedded `Datetime` carries only
  year/month/day and `isoformat` renders the fixed midnight time part.
* `xarray.Dataset` is embedded as association lists of named variables
  (dimension names, shape, flattened data) split into `data_vars` and
  `coords`, plus attributes; `xr.merge(..., join="exact")` is embedded as
  a merge that requires every variable name shared between inputs to
  carry identical variables (the specialisation of the exact-index join
  plus `compat="no_conflicts"` to total data) and returns the union.
* The external libraries that the spec excludes (fsspec, xstac, pystac
  validation) enter as parameters of the record builders.
-/

set_option maxRecDepth 10000

namespace UKCP18

/-! ### Character classes (ASCII restriction of Python `re` classes) -/

/-- Python `\w` (ASCII): letters, digits and underscore. -/
def isWord (c : Char) : Bool := c.isAlpha || c.isDigit || c = '_'

/-- Python `\d` (ASCII): decimal digits. -/
def isDigit (c : Char) : Bool := c.isDigit

/-- Python `[^_]`: any character other than an underscore. -/
def notUnderscore (c : Char) : Bool := !(c = '_')

/-! ### Regex combinators

Continuation-passing matchers.  `matchPlus p k cs` implements a greedy
`(p)+` group: it captures the longest possible nonempty prefix of
`p`-characters first and hands `(group, rest)` to the continuation `k`,
backtracking to shorter captures when `k` fails — exactly the behaviour
of a greedy `+` in `re`.  `litM l k cs` matches the literal `l`;
`repM p n k cs` matches exactly `n` characters satisfying `p` (for
`\d{8}`); `anyM` is `.` (anything but a newline). -/

def litM (l : List Char) (k : List Char → Option α) : List Char → Option α :=
  fun cs =>
    match l, cs with
    | [], cs => k cs
    | _ :: _, [] => none
    | a :: l', c :: cs' => if a = c then litM l' k cs' else none

def matchPlus (p : Char → Bool) (k : List Char → List Char → Option α) :
    List Char → Option α
  | [] => none
  | c :: cs =>
    if p c then
      match matchPlus p (fun g r => k (c :: g) r) cs with
      | some x => some x
      | none => k [c] cs
    else none

def repM (p : Char → Bool) : Nat → (List Char → List Char → Option α) → List Char → Option α
  | 0, k, cs => k [] cs
  | _ + 1, _, [] => none
  | n + 1, k, c :: cs => if p c then repM p n (fun g r => k (c :: g) r) cs else none

def anyM (k : List Char → Option α) : List Char → Option α
  | [] => none
  | c :: cs => if c = '\n' then none else k cs

/-! ### The `_xpr` pattern

    (?P<variable>\w+)_(?P<scenario>\w+)_land-gcm_global_60km_
    (?P<member_id>\d+)_(?P<temporal_resolution>[^_]+)_
    (?P<start_datetime>\d{8})-(?P<end_datetime>\d{8}).nc

matched with `re.match` (anchored at the start only; the final `.` is the
wildcard). -/

structure MatchGroups where
  varname : List Char
  scenario : List Char
  member_id : List Char
  temporal_resolution : List Char
  start_datetime : List Char
  end_datetime : List Char
  deriving DecidableEq, Repr

/-- The fixed literal `_land-gcm_global_60km_` of the pattern. -/
def litGrid : List Char := "_land-gcm_global_60km_".data

/-- Continuation after the second 8-digit group: `.nc` (dot = wildcard),
then accept — `re.match` does not anchor the end, so any rest is fine. -/
def kAfterD2 (v s m t d1 d2 : List Char) : List Char → Option MatchGroups :=
  anyM (litM "nc".data (fun _ => some ⟨v, s, m, t, d1, d2⟩))

def kD2 (v s m t d1 : List Char) : List Char → Option MatchGroups :=
  repM isDigit 8 (fun d2 => kAfterD2 v s m t d1 d2)

def kD1 (v s m t : List Char) : List Char → Option MatchGroups :=
  repM isDigit 8 (fun d1 => litM ['-'] (kD2 v s m t d1))

def kRes (v s m : List Char) : List Char → List Char → Option MatchGroups :=
  fun t => litM ['_'] (kD1 v s m t)

def kMem (v s : List Char) : List Char → List Char → Option MatchGroups :=
  fun m => litM ['_'] (matchPlus notUnderscore (kRes v s m))

def kScen (v : List Char) : List Char → List Char → Option MatchGroups :=
  fun s => litM litGrid (matchPlus isDigit (kMem v s))

def kVar : List Char → List Char → Option MatchGroups :=
  fun v => litM ['_'] (matchPlus isWord (kScen v))

/-- `_xpr.match(name)`, returning the capture groups. -/
def xprMatch : List Char → Option MatchGroups :=
  matchPlus isWord kVar

/-! ### `pathlib.Path(filename).name` -/

/-- Split on `/` (the list of path components, empty components kept). -/
def splitSlash : List Char → List (List Char)
  | [] => [[]]
  | c :: cs =>
    match splitSlash cs with
    | [] => [[c]]
    | h :: t => if c = '/' then [] :: h :: t else (c :: h) :: t

/-- `pathlib.Path(p).name`: the last path component after pathlib drops
empty and `.` components (`Path("a//b/.").name = "b"`); `""` when no
component remains. -/
def basename (cs : List Char) : List Char :=
  ((splitSlash cs).filter (fun comp => !(comp = [] ∨ comp = ['.']))).getLastD []

/-! ### `datetime.datetime.strptime(_, "%Y%m%d")` -/

structure Datetime where
  year : Nat
  month : Nat
  day : Nat
  deriving DecidableEq, Repr, Inhabited

/-- Proleptic Gregorian leap year, as in Python `datetime`. -/
def isLeap (y : Nat) : Bool := y % 4 = 0 && (!(y % 100 = 0) || y % 400 = 0)

def daysInMonth (y m : Nat) : Nat :=
  if m = 2 then (if isLeap y then 29 else 28)
  else if m = 4 ∨ m = 6 ∨ m = 9 ∨ m = 11 then 30
  else 31

/-- Numeric value of a digit character. -/
def charVal (c : Char) : Nat := c.toNat - '0'.toNat

/-- Value of a digit string (this is also `int(...)` on the `\d+`
member-id capture: base-10 with leading zeros allowed). -/
def charsVal (cs : List Char) : Nat := cs.foldl (fun a c => 10 * a + charVal c) 0

/-- `datetime.datetime.strptime(cs, "%Y%m%d")` on the 8-character capture
group (see the header comment for why this is the exact behaviour):
four-digit year in 1..9999, two-digit month in 1..12, two-digit day
within the month.  Returns `none` where CPython raises `ValueError`. -/
def strptime8 (cs : List Char) : Option Datetime :=
  match cs with
  | [y1, y2, y3, y4, m1, m2, d1, d2] =>
    if [y1, y2, y3, y4, m1, m2, d1, d2].all isDigit then
      let y := charsVal [y1, y2, y3, y4]
      let mo := charsVal [m1, m2]
      let da := charsVal [d1, d2]
      if 1 ≤ y ∧ 1 ≤ mo ∧ mo ≤ 12 ∧ 1 ≤ da ∧ da ≤ daysInMonth y mo then
        some ⟨y, mo, da⟩
      else none
    else none
  | _ => none

/-! ### `Parts` -/

structure Parts where
  scenario : List Char
  member_id : Nat
  varname : List Char
  temporal_resolution : List Char
  start_datetime : Datetime
  end_datetime : Datetime
  filename : List Char
  deriving DecidableEq, Repr

/-- `Parts.from_filename`: strip the directory, match `_xpr` (raising —
`none` — on failure), convert the member id with `int` and the two dates
with `strptime` (whose `ValueError` propagates as `none`). -/
def from_filename (filename : List Char) : Option Parts := do
  let name := basename filename
  let g ← xprMatch name
  let sd ← strptime8 g.start_datetime
  let ed ← strptime8 g.end_datetime
  pure ⟨g.scenario, charsVal g.member_id, g.varname, g.temporal_resolution, sd, ed, name⟩

/-! ### `str`, `isoformat` and `Parts.item_id` -/

/-- Decimal digits of `n`, most significant first (fuel-based so that the
kernel can evaluate it; `toDigitsAux (n+1) n` always has enough fuel). -/
def toDigitsAux : Nat → Nat → List Char
  | 0, _ => []
  | fuel + 1, n =>
    if n < 10 then [Nat.digitChar n] else toDigitsAux fuel (n / 10) ++ [Nat.digitChar (n % 10)]

/-- Python `str` on a natural number. -/
def natToChars (n : Nat) : List Char := toDigitsAux (n + 1) n

/-- Left-pad with `'0'` to width `w`. -/
def padZero (w : Nat) (cs : List Char) : List Char :=
  List.replicate (w - cs.length) '0' ++ cs

/-- `datetime.isoformat()` for the midnight datetimes of this program:
`YYYY-MM-DDT00:00:00`. -/
def isoformat (t : Datetime) : List Char :=
  padZero 4 (natToChars t.year) ++ '-' :: padZero 2 (natToChars t.month) ++
    '-' :: padZero 2 (natToChars t.day) ++ "T00:00:00".data

/-- `Parts.item_id`: `"-".join(["ukcp18", resolution, scenario,
str(member), start.isoformat()+"Z", end.isoformat()+"Z"])`. -/
def Parts.item_id (p : Parts) : List Char :=
  "ukcp18-".data ++ p.temporal_resolution ++ '-' :: p.scenario ++
    '-' :: natToChars p.member_id ++ '-' :: (isoformat p.start_datetime ++ ['Z']) ++
    '-' :: (isoformat p.end_datetime ++ ['Z'])

/-! ### `xarray.Dataset` model

A variable is its dimension names, its shape and its (flattened,
row-major) data.  A dataset splits its named variables into data
variables and coordinates and carries attributes.  Data values are
integers: the module only moves metadata and whole arrays around, it
never computes on the payload. -/

structure Variable where
  dims : List String
  shape : List Nat
  data : List Int
  attrs : List (String × String) := []
  deriving DecidableEq, Repr, Inhabited

structure Dataset where
  data_vars : List (String × Variable)
  coords : List (String × Variable)
  attrs : List (String × String)
  deriving DecidableEq, Repr, Inhabited

/-- `ds[name]` lookup over coordinates and data variables (`none` where
Python raises `KeyError`). -/
def getVar (d : Dataset) (n : String) : Option Variable :=
  (d.coords.lookup n).orElse fun _ => d.data_vars.lookup n

/-- All variable names of a dataset (coordinates and data variables). -/
def allNames (d : Dataset) : List String := (d.coords ++ d.data_vars).map (·.1)

/-- All dimension names appearing in a dataset. -/
def dimsOf (d : Dataset) : List String :=
  ((d.coords ++ d.data_vars).map (fun kv => kv.2.dims)).flatten

/-- `ds.copy()` — in this value-level model a copy is the same value (the
heap model below accounts for object identity). -/
def Dataset.copy (d : Dataset) : Dataset := d

/-- `ds.drop_vars(n, errors="ignore")`: remove the named variable from
data variables and coordinates; no error when absent. -/
def drop_vars (n : String) (d : Dataset) : Dataset :=
  ⟨d.data_vars.filter (fun kv => !(kv.1 = n)), d.coords.filter (fun kv => !(kv.1 = n)),
    d.attrs⟩

/-- `set(x.data_vars) & {"sfcWind", "uas", "vas"}` is nonempty. -/
def hasWind (d : Dataset) : Bool :=
  d.data_vars.any (fun kv => kv.1 = "sfcWind" || kv.1 = "uas" || kv.1 = "vas")

/-- Row-major stride of axis `k`. -/
def stride (shape : List Nat) (k : Nat) : Nat :=
  (shape.drop (k + 1)).foldl (· * ·) 1

/-- `v.isel(dim=slice(1, None))` on one variable: drop the first index
along `dim` (identity when the variable does not carry `dim`). -/
def sliceFrom1 (dim : String) (v : Variable) : Variable :=
  if dim ∈ v.dims then
    let k := v.dims.indexOf dim
    let n := (v.shape.get? k).getD 0
    { v with shape := v.shape.set k (n - 1),
             data := (v.data.enum.filter (fun p => !((p.1 / stride v.shape k) % n = 0))).map (·.2) }
  else v

/-- `ds.isel(latitude=slice(1, None))`: slice every variable (data
variables and coordinates) along `latitude`. -/
def isel_lat (d : Dataset) : Dataset :=
  ⟨d.data_vars.map (fun kv => (kv.1, sliceFrom1 "latitude" kv.2)),
    d.coords.map (fun kv => (kv.1, sliceFrom1 "latitude" kv.2)), d.attrs⟩

/-- Replace the first entry with key `n` in an association list. -/
def updAssoc [BEq κ] (l : List (κ × β)) (n : κ) (v : β) : List (κ × β) :=
  match l with
  | [] => []
  | kv :: t => if kv.1 == n then (n, v) :: t else kv :: updAssoc t n v

/-- Dictionary-style set: replace the entry when the key is present,
append it otherwise. -/
def setAssoc [BEq κ] (l : List (κ × β)) (n : κ) (v : β) : List (κ × β) :=
  if (l.lookup n).isSome then updAssoc l n v else l ++ [(n, v)]

/-- `ds[n] = v`: replace the variable where it lives; a new name becomes
a coordinate when it names a dimension of the dataset (xarray promotes
dimension coordinates), otherwise a data variable. -/
def setVar (d : Dataset) (n : String) (v : Variable) : Dataset :=
  if (d.coords.lookup n).isSome then ⟨d.data_vars, updAssoc d.coords n v, d.attrs⟩
  else if (d.data_vars.lookup n).isSome then ⟨updAssoc d.data_vars n v, d.coords, d.attrs⟩
  else if n ∈ dimsOf d then ⟨d.data_vars, d.coords ++ [(n, v)], d.attrs⟩
  else ⟨d.data_vars ++ [(n, v)], d.coords, d.attrs⟩

/-! ### `align` and `merge` -/

/-- The body run for one dataset inside `align`'s loop (after the
height-drop): wind datasets are trimmed by one latitude row and their
grid coordinates overwritten from `base`; `none` when a `base[...]`
lookup raises `KeyError`. -/
def alignOne (base : Dataset) (x : Dataset) : Option Dataset :=
  if hasWind x then do
    let x := isel_lat x
    let lat ← getVar base "latitude"
    let x := setVar x "latitude" lat
    let lon ← getVar base "longitude"
    let x := setVar x "longitude" lon
    let latb ← getVar base "latitude_bnds"
    let x := setVar x "latitude_bnds" latb
    let lonb ← getVar base "longitude_bnds"
    pure (setVar x "longitude_bnds" lonb)
  else pure x

/-- `align(datasets, base)`: defensively copy each input, drop the
vestigial `height` variable, then reconcile the wind-variable datasets
against `base`. -/
def align (datasets : List Dataset) (base : Dataset) : Option (List Dataset) :=
  (datasets.map (fun x => drop_vars "height" x.copy)).mapM (alignOne base)

/-- Pairwise compatibility used by the embedded `xr.merge(join="exact")`:
every name shared by two datasets must carry identical variables (the
specialisation of the exact-index join together with
`compat="no_conflicts"` to total data). -/
def pairCompatible (a b : Dataset) : Bool :=
  (allNames a).all fun n =>
    match getVar a n, getVar b n with
    | some v1, some v2 => decide (v1 = v2)
    | _, _ => true

def compatible : List Dataset → Bool
  | [] => true
  | d :: ds => ds.all (pairCompatible d) && compatible ds

/-- Left-biased union of association lists. -/
def unionAssoc (xs ys : List (String × Variable)) : List (String × Variable) :=
  xs ++ ys.filter (fun kv => (xs.lookup kv.1).isNone)

/-- Coordinates of the merged dataset: union, earlier datasets win. -/
def mergeCoords (l : List Dataset) : List (String × Variable) :=
  l.foldr (fun d acc => unionAssoc d.coords acc) []

/-- Data variables of the merged dataset: union, minus names that are a
coordinate somewhere (xarray promotes those to coordinates). -/
def mergeDataVars (l : List Dataset) : List (String × Variable) :=
  (l.foldr (fun d acc => unionAssoc d.data_vars acc) []).filter
    (fun kv => ((mergeCoords l).lookup kv.1).isNone)

/-- `xr.merge(l, join="exact")` (default `combine_attrs="override"`
takes the first dataset's attributes); `none` where xarray raises
`MergeError`. -/
def xrMergeExact (l : List Dataset) : Option Dataset :=
  if compatible l then
    some ⟨mergeDataVars l, mergeCoords l, ((l.head?.map (·.attrs)).getD [])⟩
  else none

/-- `merge(datasets, base)` from the source: align, then an exact join. -/
def merge (datasets : List Dataset) (base : Dataset) : Option Dataset :=
  (align datasets base).bind xrMergeExact

/-- Size of a named dimension in a dataset (`ds.sizes[dim]`): taken from
the first variable carrying that dimension, `0` when absent. -/
def dimSize (d : Dataset) (dim : String) : Nat :=
  match (d.coords ++ d.data_vars).find? (fun kv => dim ∈ kv.2.dims) with
  | some kv => (kv.2.shape.get? (kv.2.dims.indexOf dim)).getD 0
  | none => 0

/-! ### Heap model of `align`

The value-level `align` above cannot express the aliasing question of
claim C6 (Python mutates objects in place).  Here the same source lines
are translated against an explicit heap: datasets live in numbered
cells, the callers' inputs are references into the heap, `x.copy()` /
`x.drop_vars(...)` / `x.isel(...)` allocate fresh cells (each of those
xarray methods returns a new object) and the four `x[...] = ...`
statements mutate the cell the loop variable currently points at. -/

abbrev Heap := List Dataset

def getH (h : Heap) (r : Nat) : Dataset := (h.get? r).getD default

def allocH (h : Heap) (d : Dataset) : Heap × Nat := (h ++ [d], h.length)

/-- One element of the step-1 list comprehension:
`x.copy().drop_vars("height", errors="ignore")` — allocate the copy,
then allocate the result of `drop_vars` on it. -/
def copyDropH (h : Heap) (r : Nat) : Heap × Nat :=
  let (h1, rc) := allocH h (getH h r)
  allocH h1 (drop_vars "height" (getH h1 rc))

def step1H : Heap → List Nat → Heap × List Nat
  | h, [] => (h, [])
  | h, r :: rs =>
    let (h1, r') := copyDropH h r
    let (h2, rs') := step1H h1 rs
    (h2, r' :: rs')

/-- One iteration of the step-2 loop on the (fresh) dataset at `r`:
rebind the loop variable to a fresh `isel` result for wind datasets,
then mutate that fresh cell with the four coordinate overrides; a failed
`base[...]` lookup raises, leaving the heap as it stands. -/
def alignOneH (h : Heap) (baseRef : Nat) (r : Nat) : Heap × Option Nat :=
  if hasWind (getH h r) then
    let (h, r1) := allocH h (isel_lat (getH h r))
    match getVar (getH h baseRef) "latitude" with
    | none => (h, none)
    | some lat =>
      let h := h.set r1 (setVar (getH h r1) "latitude" lat)
      match getVar (getH h baseRef) "longitude" with
      | none => (h, none)
      | some lon =>
        let h := h.set r1 (setVar (getH h r1) "longitude" lon)
        match getVar (getH h baseRef) "latitude_bnds" with
        | none => (h, none)
        | some latb =>
          let h := h.set r1 (setVar (getH h r1) "latitude_bnds" latb)
          match getVar (getH h baseRef) "longitude_bnds" with
          | none => (h, none)
          | some lonb =>
            (h.set r1 (setVar (getH h r1) "longitude_bnds" lonb), some r1)
  else (h, some r)

def step2H : Heap → Nat → List Nat → Heap × Option (List Nat)
  | h, _, [] => (h, some [])
  | h, b, r :: rs =>
    match alignOneH h b r with
    | (h', none) => (h', none)
    | (h', some r') =>
      match step2H h' b rs with
      | (h'', none) => (h'', none)
      | (h'', some rs') => (h'', some (r' :: rs'))

/-- `align(datasets, base)` against the heap. -/
def alignH (h : Heap) (refs : List Nat) (baseRef : Nat) : Heap × Option (List Nat) :=
  let (h1, copies) := step1H h refs
  step2H h1 baseRef copies

/-- `merge(datasets, base)` against the heap: `xr.merge` itself builds a
fresh dataset from the aligned values and never writes to its inputs. -/
def mergeH (h : Heap) (refs : List Nat) (baseRef : Nat) : Heap × Option Dataset :=
  match alignH h refs baseRef with
  | (h', none) => (h', none)
  | (h', some rs) => (h', xrMergeExact (rs.map (getH h')))

/-! ### Record builders

The external collaborators (the `xstac` metadata-template translator,
`pystac` schema validation, the attribute encoder
`xr.backends.zarr.encode_zarr_attr_value` and `fsspec` dataset opening)
are excluded from the spec's scope and enter as parameters. -/

/-- The `VARIABLES` controlled vocabulary. -/
def VARIABLES : List String :=
  ["clt", "hurs", "huss", "pr", "psl", "rls", "rss", "sfcWind", "tas",
   "tasmax", "tasmin", "uas", "vas"]

/-- The `TEMPORAL_RESOLUTIONS` controlled vocabulary. -/
def TEMPORAL_RESOLUTIONS : List String := ["day", "mon"]

/-- The attribute-normalisation loop shared by both builders:
`ds[k].attrs = {name: encode_zarr_attr_value(value) ...}` for every
variable of the dataset; the external encoder is the parameter `enc`. -/
def encode_attrs (enc : String → String) (d : Dataset) : Dataset :=
  let f : Variable → Variable := fun v => { v with attrs := v.attrs.map fun p => (p.1, enc p.2) }
  ⟨d.data_vars.map (fun kv => (kv.1, f kv.2)), d.coords.map (fun kv => (kv.1, f kv.2)), d.attrs⟩

/-- A dimension of the datacube extension; only its `extent` list is
touched by this module. -/
structure DatacubeDimension where
  extent : List String
  deriving DecidableEq, Repr, Inhabited

/-- The per-variable descriptor exposed by the datacube extension
(`ext.variables[k]`): a description and the `attrs` property bag. -/
structure VariableMeta where
  description : String
  attrs : List (String × String)
  deriving DecidableEq, Repr, Inhabited

/-- `pystac.extensions.item_assets.AssetDefinition` as populated here. -/
structure AssetDefinition where
  description : String
  title : String
  media_type : String
  roles : List String
  deriving DecidableEq, Repr, Inhabited

/-- The collection record as far as this module reads or writes it.  The
static template content (providers, documentation links, license link,
keywords, citation) is fixed text not consulted by any claim and is
carried by the translator output opaquely. -/
structure CollectionRec where
  dimensions : List (String × DatacubeDimension)
  variablesMeta : List (String × VariableMeta)
  item_assets : List (String × AssetDefinition)
  summaries : List (String × List String)
  summaries_maxcount : Nat
  deriving DecidableEq, Repr, Inhabited

/-- The fixed temporal extent of the collection template:
`pystac.TemporalExtent(intervals=[datetime(1899,12,1), datetime(2100,12,31)])`
— pystac wraps the (mistakenly flat) `[start, end]` list into the single
interval `[[start, end]]`, so `intervals[0][1]` is the era end. -/
def collectionIntervals : List (List Datetime) := [[⟨1899, 12, 1⟩, ⟨2100, 12, 31⟩]]

/-- `create_collection(ds)`.  `xstacC` is the external
`xstac.xarray_to_stac(ds, template, reference_system=4326)` translator;
`enc` the external attribute encoder.  Returns `none` where the source
raises (`ext.dimensions["time"]` missing, `time.extent[1]` out of
range); `r.validate()` is external schema validation, modeled as
passing. -/
def create_collection (xstacC : Dataset → CollectionRec) (enc : String → String)
    (ds : Dataset) : Option CollectionRec :=
  let ds := encode_attrs enc ds
  let r := xstacC ds
  match r.dimensions.lookup "time" with
  | none => none
  | some timeDim =>
    if timeDim.extent.length < 2 then none
    else
      -- time.extent[1] = extent.temporal.intervals[0][1].isoformat() + "Z"
      let endZ := String.mk (isoformat (((collectionIntervals.getD 0 []).getD 1 default)) ++ ['Z'])
      let r := { r with dimensions := updAssoc r.dimensions "time" ⟨timeDim.extent.set 1 endZ⟩ }
      let defs := r.variablesMeta.map fun kv =>
        (kv.1, AssetDefinition.mk kv.2.description ((kv.2.attrs.lookup "long_name").getD kv.1)
          "application/netcdf" ["data"])
      let r := { r with item_assets := defs }
      some { r with summaries_maxcount := 50,
                    summaries := r.summaries ++
                      [("ukcp18:variable", VARIABLES),
                       ("ukcp18:temporal_resolution", TEMPORAL_RESOLUTIONS)] }

/-- A property value on an item: the module writes strings and the
member-id integer. -/
inductive PropVal
  | str (v : List Char)
  | int (v : Nat)
  deriving DecidableEq, Repr

/-- `pystac.Asset` as populated here. -/
structure Asset where
  href : List Char
  media_type : String
  roles : List String
  extra_fields : List (String × String)
  deriving DecidableEq, Repr, Inhabited

/-- The item record as far as this module reads or writes it.  The fixed
whole-globe geometry is summarised by `bbox`; `cube` holds the datacube
metadata the external translator adds. -/
structure ItemRec where
  id : List Char
  bbox : List Int
  properties : List (String × PropVal)
  assets : List (List Char × Asset)
  cube : List (String × DatacubeDimension)
  deriving DecidableEq, Repr, Inhabited

/-- Modelled from the spec: `xstac.xarray_to_stac(ds, template, ...)` on
an item — the external metadata-template translator is excluded from
this repository.  Per spec sections 2 and 4.3 it returns the template
"enriched" with dimension/variable metadata derived from the dataset
while the id, assets and the template's own properties (the identity
fields the builder set beforehand) stay in force; its derived content
enters as the opaque parameters `cubeOf` and `propsOf`, and a derived
property never shadows an existing one. -/
def xarray_to_stac_item (cubeOf : Dataset → List (String × DatacubeDimension))
    (propsOf : Dataset → List (String × PropVal)) (ds : Dataset) (t : ItemRec) : ItemRec :=
  { t with cube := cubeOf ds,
           properties := t.properties ++
             (propsOf ds).filter fun p => (t.properties.lookup p.1).isNone }

def getProp (it : ItemRec) (n : String) : Option PropVal := it.properties.lookup n

def setProp (it : ItemRec) (n : String) (v : PropVal) : ItemRec :=
  { it with properties := setAssoc it.properties n v }

/-- The body of `create_item`'s asset loop:
`parts = Parts.from_filename(path); item.add_asset(parts.variable,
pystac.Asset(path, media_type="application/netcdf", roles=["data"],
extra_fields=asset_extra_fields))` — the loop state is the item together
with the (reused) `parts` variable. -/
def addAssetStep (asset_extra_fields : List (String × String))
    (st : ItemRec × Parts) (path : List Char) : Option (ItemRec × Parts) := do
  let parts ← from_filename path
  let asset : Asset := ⟨path, "application/netcdf", ["data"], asset_extra_fields⟩
  pure ({ st.1 with assets := setAssoc st.1.assets parts.varname asset }, parts)

/-- `create_item(urls, ...)`.  `openDs` is the external
`xr.open_dataset(fsspec.open(f, ...))`; `cubeOf`/`propsOf` the external
translator's derived content; `enc` the attribute encoder;
`asset_extra_fields` the caller-supplied asset extra fields.  `none`
where the source raises (`datasets[0]` on an empty list, merge failure,
parse failure); `item.validate()` is external, modeled as passing. -/
def create_item (openDs : List Char → Dataset)
    (cubeOf : Dataset → List (String × DatacubeDimension))
    (propsOf : Dataset → List (String × PropVal))
    (enc : String → String) (asset_extra_fields : List (String × String))
    (urls : List (List Char)) : Option ItemRec := do
  let datasets := urls.map openDs
  let base ← datasets.head?
  let ds ← merge datasets base
  let path ← urls.head?
  let ds := encode_attrs enc ds
  let parts ← from_filename path
  let template : ItemRec :=
    { id := "item".data, bbox := [-180, -90, 180, 90],
      properties := [("start_datetime", .str (isoformat parts.start_datetime ++ ['Z'])),
                     ("end_datetime", .str (isoformat parts.end_datetime ++ ['Z']))],
      assets := [], cube := [] }
  let item := xarray_to_stac_item cubeOf propsOf ds template
  let item := { item with id := parts.item_id }
  -- for path in urls: parts = Parts.from_filename(path); item.add_asset(parts.variable, ...)
  -- (the loop deliberately reuses the name `parts`; after it, `parts`
  -- holds the identity of the *last* url)
  let st ← urls.foldlM (addAssetStep asset_extra_fields) (item, parts)
  let item := setProp st.1 "ukcp18:member_id" (.int st.2.member_id)
  let item := setProp item "ukcp18:temporal_resolution" (.str st.2.temporal_resolution)
  pure item

/-! ### Concrete fixtures for witnesses and counterexamples -/

/-- A one-row latitude coordinate (the base grid). -/
def latVar1 : Variable := ⟨["latitude"], [1], [0], []⟩

def lonVar : Variable := ⟨["longitude"], [1], [5], []⟩

def latBnds1 : Variable := ⟨["latitude", "bnds"], [1, 2], [0, 1], []⟩

def lonBnds : Variable := ⟨["longitude", "bnds"], [1, 2], [4, 6], []⟩

/-- A base dataset on the one-row grid with a non-wind variable. -/
def baseDs : Dataset :=
  ⟨[("latitude_bnds", latBnds1), ("longitude_bnds", lonBnds),
    ("tas", ⟨["latitude", "longitude"], [1, 1], [3], []⟩)],
   [("latitude", latVar1), ("longitude", lonVar)], []⟩

/-- A two-row latitude coordinate (the shifted wind grid). -/
def latVar2 : Variable := ⟨["latitude"], [2], [9, 0], []⟩

/-- A wind dataset with one extra latitude row versus `baseDs`, and with
a `height` data variable. -/
def windDs : Dataset :=
  ⟨[("sfcWind", ⟨["latitude", "longitude"], [2, 1], [7, 8], []⟩),
    ("height", ⟨[], [], [10], []⟩)],
   [("latitude", latVar2), ("longitude", lonVar)], []⟩

/-- A wind dataset like `windDs` but without the `height` variable. -/
def windDsNoH : Dataset :=
  ⟨[("sfcWind", ⟨["latitude", "longitude"], [2, 1], [7, 8], []⟩)],
   [("latitude", latVar2), ("longitude", lonVar)], []⟩

/-- A non-wind dataset carrying only a scalar `height` variable. -/
def heightDs : Dataset := ⟨[("height", ⟨[], [], [10], []⟩)], [], []⟩

/-- A minimal non-wind, non-height dataset used to open the item-builder
fixtures. -/
def tasDs : Dataset := ⟨[("tas", ⟨["latitude"], [1], [3], []⟩)], [("latitude", latVar1)], []⟩

/-- The spec's example filename. -/
def exampleName : List Char :=
  "tasmax_rcp26_land-gcm_global_60km_01_day_18991201-19091130.nc".data

def urlTas1 : List Char := "tas_rcp26_land-gcm_global_60km_01_day_18991201-19091130.nc".data

/-- Same basename as `urlTas1` under a directory — a distinct url that
parses to the same variable name. -/
def urlTas2 : List Char := "x/tas_rcp26_land-gcm_global_60km_01_day_18991201-19091130.nc".data

/-- Same variable as `urlTas1` but ensemble member 02. -/
def urlTas3 : List Char := "tas_rcp26_land-gcm_global_60km_02_day_18991201-19091130.nc".data

/-- Chronological key of a calendar date (monotone in the date order
for valid dates: year, then month, then day). -/
def dateKey (t : Datetime) : Nat := t.year * 10000 + t.month * 100 + t.day

/-- The spec's example filename with trailing characters appended —
its basename does not match the spec's (fully delimited) grammar. -/
def exampleNameExtra : List Char := exampleName ++ "EXTRA".data

/-- The spec's example filename with its two dates swapped (start after
end). -/
def exampleNameRev : List Char :=
  "tasmax_rcp26_land-gcm_global_60km_01_day_19091130-18991201.nc".data

/-- The spec grammar
`{variable}_{scenario}_land-gcm_global_60km_{member}_{resolution}_{start}-{end}.nc`
read as a *full* match of the basename, with a literal `.nc` suffix.
This is the refinement-comparison definition written from the spec's
words ("the trailing filename component does not match the fixed
grammar"), to be contrasted with the code's `_xpr`/`re.match`, which
anchors only the start and treats the dot as a wildcard. -/
def specGrammarFull (cs : List Char) : Bool :=
  (matchPlus isWord
    (fun _ => litM ['_'] (matchPlus isWord
      (fun _ => litM litGrid (matchPlus isDigit
        (fun _ => litM ['_'] (matchPlus notUnderscore
          (fun _ => litM ['_'] (repM isDigit 8
            (fun _ => litM ['-'] (repM isDigit 8
              (fun _ => litM ['.', 'n', 'c']
                (fun rest => if rest = [] then some () else none))))))))))))
    cs).isSome

/-- A concrete parsed identity (the spec's example file). -/
def partsFixA : Parts :=
  ⟨"rcp26".data, 1, "tasmax".data, "day".data, ⟨1899, 12, 1⟩, ⟨1909, 11, 30⟩, exampleName⟩

/-- Like `partsFixA` but ensemble member 2. -/
def partsFixB : Parts :=
  ⟨"rcp26".data, 2, "tasmax".data, "day".data, ⟨1899, 12, 1⟩, ⟨1909, 11, 30⟩, exampleName⟩

/-- A translator output with a `time` dimension, for collection-builder
witnesses. -/
def collTrOut : CollectionRec := ⟨[("time", ⟨["1899-12-01T00:00:00Z", "1909-11-30T00:00:00Z"]⟩)], [], [], [], 0⟩

/-- The data-model constraints on a parsed date (what the `datetime`
constructor guarantees): year 1..9999, month 1..12, day within the
month. -/
def ValidDate (t : Datetime) : Prop :=
  1 ≤ t.year ∧ t.year ≤ 9999 ∧ 1 ≤ t.month ∧ t.month ≤ 12 ∧
    1 ≤ t.day ∧ t.day ≤ daysInMonth t.year t.month

/-- The data-model constraints on a `FileIdentity`: the temporal
resolution is one of the fixed vocabulary {day, mon} and the two
timestamps are calendar dates (the scenario may be any string, the
member id any natural number). -/
def ModelParts (p : Parts) : Prop :=
  (p.temporal_resolution = "day".data ∨ p.temporal_resolution = "mon".data) ∧
    ValidDate p.start_datetime ∧ ValidDate p.end_datetime

instance (t : Datetime) : Decidable (ValidDate t) := by
  unfold ValidDate; infer_instance

instance (p : Parts) : Decidable (ModelParts p) := by
  unfold ModelParts; infer_instance

/-- `h'` extends `h`: no cell of `h` has been touched. -/
def HeapExt (h h' : Heap) : Prop :=
  h.length ≤ h'.length ∧ ∀ i, i < h.length → h'.get? i = h.get? i

/-- The propositional content of `compatible`. -/
def Compat (l : List Dataset) : Prop :=
  ∀ a ∈ l, ∀ b ∈ l, ∀ n v1 v2, getVar a n = some v1 → getVar b n = some v2 → v1 = v2

/-!
# Theorems

Helper lemmas first, then one theorem per claim (with witnesses and
counterexamples where required).
-/

section AssocLemmas

variable {κ β : Type} [BEq κ] [LawfulBEq κ]

theorem lookup_append_or (xs ys : List (κ × β)) (n : κ) :
    (xs ++ ys).lookup n = (xs.lookup n).orElse fun _ => ys.lookup n := by
  induction xs with
  | nil => rfl
  | cons kv t ih =>
    by_cases h : n = kv.1
    · simp [List.lookup, h]
    · have h' : (n == kv.1) = false := by simpa using h
      simp [List.lookup, h', ih]

theorem lookup_keyFilter (p : κ → Bool) (ys : List (κ × β)) (n : κ)
    (hp : p n = true) :
    (ys.filter (fun kv => p kv.1)).lookup n = ys.lookup n := by
  induction ys with
  | nil => rfl
  | cons kv t ih =>
    by_cases h : n = kv.1
    · subst h; simp [List.lookup, hp, List.filter_cons]
    · have h' : (n == kv.1) = false := by simpa using h
      by_cases hk : p kv.1 <;> simp [List.filter_cons, hk, List.lookup, h', ih]

theorem lookup_snoc (l : List (κ × β)) (n : κ) (v : β) :
    (l ++ [(n, v)]).lookup n = ((l.lookup n).getD v : β) := by
  induction l with
  | nil => simp [List.lookup]
  | cons kv t ih =>
    by_cases h : n = kv.1
    · simp [List.lookup, h]
    · have h' : (n == kv.1) = false := by simpa using h
      simp [List.lookup, h', ih]

theorem lookup_snoc_ne (l : List (κ × β)) (n n' : κ) (v : β) (h : ¬(n' = n)) :
    (l ++ [(n, v)]).lookup n' = l.lookup n' := by
  induction l with
  | nil =>
    have h' : (n' == n) = false := by simpa using h
    simp [List.lookup, h']
  | cons kv t ih =>
    by_cases hk : n' = kv.1
    · simp [List.lookup, hk]
    · have h' : (n' == kv.1) = false := by simpa using hk
      simp [List.lookup, h', ih]

theorem lookup_updAssoc_self (l : List (κ × β)) (n : κ) (v : β) :
    (updAssoc l n v).lookup n = (l.lookup n).map fun _ => v := by
  induction l with
  | nil => rfl
  | cons kv t ih =>
    by_cases h : kv.1 = n
    · simp [updAssoc, List.lookup, h]
    · have h' : (n == kv.1) = false := by simpa using fun e => h e.symm
      have h'' : (kv.1 == n) = false := by simpa using h
      simp [updAssoc, List.lookup, h', h'', ih]

theorem lookup_updAssoc_ne (l : List (κ × β)) (n n' : κ) (v : β) (h : ¬(n' = n)) :
    (updAssoc l n v).lookup n' = l.lookup n' := by
  induction l with
  | nil => rfl
  | cons kv t ih =>
    by_cases hk : kv.1 = n
    · have h1 : (n' == n) = false := by simpa using h
      have h2 : (n' == kv.1) = false := by simpa using fun e => h (e.trans hk)
      simp [updAssoc, List.lookup, hk, h1, h2]
    · have h'' : (kv.1 == n) = false := by simpa using hk
      by_cases hk' : n' = kv.1
      · simp [updAssoc, List.lookup, h'', hk']
      · have h3 : (n' == kv.1) = false := by simpa using hk'
        simp [updAssoc, List.lookup, h'', h3, ih]

theorem lookup_setAssoc_self (l : List (κ × β)) (n : κ) (v : β) :
    (setAssoc l n v).lookup n = some v := by
  unfold setAssoc
  by_cases h : (l.lookup n).isSome
  · obtain ⟨w, hw⟩ := Option.isSome_iff_exists.mp h
    simp [h, lookup_updAssoc_self, hw]
  · simp only [Option.not_isSome_iff_eq_none] at h
    simp [h, lookup_snoc]

theorem lookup_setAssoc_ne (l : List (κ × β)) (n n' : κ) (v : β) (h : ¬(n' = n)) :
    (setAssoc l n v).lookup n' = l.lookup n' := by
  unfold setAssoc
  by_cases hs : (l.lookup n).isSome
  · simp [hs, lookup_updAssoc_ne l n n' v h]
  · simp [hs, lookup_snoc_ne l n n' v h]

end AssocLemmas

/-- C7: for every merged dataset accepted by `create_collection`, the
returned collection's `time` dimension has upper extent equal to the
fixed era end `2100-12-31`, serialized as an ISO timestamp with `Z`
suffix, regardless of the time range of the input dataset (the
translator output `xstacC ds` is arbitrary). -/
theorem create_collection_forces_time_extent
    (xstacC : Dataset → CollectionRec) (enc : String → String) (ds : Dataset)
    (r : CollectionRec) (h : create_collection xstacC enc ds = some r) :
    ∃ d, r.dimensions.lookup "time" = some d ∧
      d.extent.get? 1 = some "2100-12-31T00:00:00Z" := by
  unfold create_collection at h
  dsimp only at h
  split at h
  next hl => exact absurd h (by simp)
  next timeDim hl =>
    split at h
    next => exact absurd h (by simp)
    next hlen =>
      obtain rfl : _ = r := Option.some.inj h
      refine ⟨⟨timeDim.extent.set 1
          (String.mk (isoformat ((collectionIntervals.getD 0 []).getD 1 default) ++ ['Z']))⟩, ?_, ?_⟩
      · exact (lookup_updAssoc_self (xstacC (encode_attrs enc ds)).dimensions "time" _).trans
          (by rw [hl]; rfl)
      · have h1 : 1 < timeDim.extent.length := by omega
        dsimp only
        rw [List.get?_eq_getElem?, List.getElem?_set_eq_of_lt _ h1]
        rfl

/-- Witness for C7 at a concrete translator output and dataset. -/
theorem create_collection_forces_time_extent_witness :
    ∃ d, (CollectionRec.mk [("time", ⟨["1899-12-01T00:00:00Z", "2100-12-31T00:00:00Z"]⟩)] [] []
        [("ukcp18:variable", VARIABLES), ("ukcp18:temporal_resolution", TEMPORAL_RESOLUTIONS)]
        50).dimensions.lookup "time" = some d ∧
      d.extent.get? 1 = some "2100-12-31T00:00:00Z" :=
  create_collection_forces_time_extent (fun _ => collTrOut) id tasDs _ (by decide)

/-! ### C5: merging without shifted-grid variables -/

theorem drop_vars_eq_self (d : Dataset) (n : String) (h : n ∉ allNames d) :
    drop_vars n d = d := by
  obtain ⟨dv, co, at_⟩ := d
  have hdv : ∀ kv ∈ dv, ¬(kv.1 = n) := fun kv hkv he =>
    h (show n ∈ allNames ⟨dv, co, at_⟩ from
      he ▸ List.mem_map_of_mem Prod.fst (List.mem_append_right co hkv))
  have hco : ∀ kv ∈ co, ¬(kv.1 = n) := fun kv hkv he =>
    h (show n ∈ allNames ⟨dv, co, at_⟩ from
      he ▸ List.mem_map_of_mem Prod.fst (List.mem_append_left dv hkv))
  have h1 : dv.filter (fun kv => !(kv.1 = n)) = dv :=
    List.filter_eq_self.mpr fun kv hkv => by simpa using hdv kv hkv
  have h2 : co.filter (fun kv => !(kv.1 = n)) = co :=
    List.filter_eq_self.mpr fun kv hkv => by simpa using hco kv hkv
  simp [drop_vars, h1, h2]

theorem alignOne_no_wind (base x : Dataset) (h : hasWind x = false) :
    alignOne base x = some x := by
  simp [alignOne, h]

theorem mapM_of_eq_some {α : Type} (f : α → Option α) (l : List α)
    (h : ∀ x ∈ l, f x = some x) : l.mapM f = some l := by
  induction l with
  | nil => rfl
  | cons a t ih =>
    rw [List.mapM_cons, h a (by simp)]
    rw [ih (fun x hx => h x (by simp [hx]))]
    rfl

/-- C5 (amended): when no input dataset carries a shifted-grid wind
variable *and none carries a `height` variable*, `merge(datasets, base)`
is the plain exact-match join of the unmodified inputs.  (The original
claim fails because `align` always drops a `height` variable — see the
counterexample.) -/
theorem merge_no_wind_is_plain_join (datasets : List Dataset) (base : Dataset)
    (h : ∀ d ∈ datasets, hasWind d = false ∧ "height" ∉ allNames d) :
    merge datasets base = xrMergeExact datasets := by
  unfold merge align
  have hmap : datasets.map (fun x => drop_vars "height" x.copy) = datasets := by
    rw [List.map_congr_left (fun d hd => ?_), List.map_id]
    exact drop_vars_eq_self d "height" (h d hd).2
  rw [hmap, mapM_of_eq_some _ _ (fun d hd => alignOne_no_wind base d (h d hd).1)]
  rfl

/-- Counterexample to C5 as stated: a wind-free input carrying a
`height` variable is *not* merged as-is — `merge` drops `height`, the
plain exact join keeps it. -/
theorem merge_not_plain_join_counterexample :
    (∀ d ∈ [heightDs], hasWind d = false) ∧
      merge [heightDs] heightDs ≠ xrMergeExact [heightDs] := by
  constructor
  · decide
  · decide

/-- Witness for the amended C5 at concrete inputs. -/
theorem merge_no_wind_is_plain_join_witness :
    (∀ d ∈ [baseDs, tasDs], hasWind d = false ∧ "height" ∉ allNames d) ∧
      merge [baseDs, tasDs] baseDs = xrMergeExact [baseDs, tasDs] :=
  ⟨by decide, merge_no_wind_is_plain_join [baseDs, tasDs] baseDs (by decide)⟩

/-! ### C6: the heap-level `align`/`merge` never mutates its inputs -/

theorem get?_heap_alloc (h : Heap) (d : Dataset) (i : Nat) (hi : i < h.length) :
    (h ++ [d]).get? i = h.get? i :=
  List.get?_append hi

theorem get?_heap_set (h : Heap) (j : Nat) (d : Dataset) (i : Nat) (hij : ¬(i = j)) :
    (h.set j d).get? i = h.get? i :=
  List.get?_set_ne d h (fun e => hij e.symm)

theorem heapExt_refl (h : Heap) : HeapExt h h := ⟨le_refl _, fun _ _ => rfl⟩

theorem heapExt_trans {h1 h2 h3 : Heap} (a : HeapExt h1 h2) (b : HeapExt h2 h3) :
    HeapExt h1 h3 :=
  ⟨a.1.trans b.1, fun i hi => (b.2 i (lt_of_lt_of_le hi a.1)).trans (a.2 i hi)⟩

theorem heapExt_alloc (h : Heap) (d : Dataset) : HeapExt h (h ++ [d]) :=
  ⟨by simp, fun i hi => get?_heap_alloc h d i hi⟩

theorem heapExt_set {h h' : Heap} (e : HeapExt h h') (j : Nat) (d : Dataset)
    (hj : h.length ≤ j) : HeapExt h (h'.set j d) := by
  refine ⟨by simpa using e.1, fun i hi => ?_⟩
  rw [get?_heap_set h' j d i (by omega)]
  exact e.2 i hi

theorem alignOneH_ext (h : Heap) (b r : Nat) : HeapExt h (alignOneH h b r).1 := by
  unfold alignOneH
  by_cases hw : hasWind (getH h r)
  · rw [if_pos hw]
    dsimp only [allocH]
    split
    · exact heapExt_alloc _ _
    · split
      · exact heapExt_set (heapExt_alloc _ _) _ _ (le_refl _)
      · split
        · exact heapExt_set (heapExt_set (heapExt_alloc _ _) _ _ (le_refl _)) _ _ (le_refl _)
        · split
          · exact heapExt_set (heapExt_set (heapExt_set (heapExt_alloc _ _) _ _ (le_refl _)) _ _
              (le_refl _)) _ _ (le_refl _)
          · exact heapExt_set (heapExt_set (heapExt_set (heapExt_set (heapExt_alloc _ _) _ _
              (le_refl _)) _ _ (le_refl _)) _ _ (le_refl _)) _ _ (le_refl _)
  · rw [if_neg hw]
    exact heapExt_refl h

theorem step2H_ext (rs : List Nat) (h : Heap) (b : Nat) : HeapExt h (step2H h b rs).1 := by
  induction rs generalizing h with
  | nil => exact heapExt_refl h
  | cons r t ih =>
    unfold step2H
    cases ha : alignOneH h b r with
    | mk h' or' =>
      have e1 : HeapExt h h' := by
        have := alignOneH_ext h b r
        rwa [ha] at this
      cases or' with
      | none => exact e1
      | some r' =>
        dsimp only
        cases hs : step2H h' b t with
        | mk h'' ot =>
          have e2 : HeapExt h' h'' := by
            have := ih h'
            rwa [hs] at this
          cases ot with
          | none => exact heapExt_trans e1 e2
          | some rs' => exact heapExt_trans e1 e2

theorem step1H_ext (refs : List Nat) (h : Heap) : HeapExt h (step1H h refs).1 := by
  induction refs generalizing h with
  | nil => exact heapExt_refl h
  | cons r t ih =>
    unfold step1H copyDropH allocH
    dsimp only
    exact heapExt_trans (heapExt_trans (heapExt_alloc _ _) (heapExt_alloc _ _)) (ih _)

/-- C6: the reconciliation operation never mutates its inputs — after
`merge(datasets, base)` runs against the heap, every pre-existing heap
cell (in particular every input dataset, with all its variables,
coordinates and attributes) holds exactly the value it held before,
because the copies and the `isel` results are fresh allocations and all
coordinate overrides write only to those fresh cells. -/
theorem mergeH_preserves_inputs (h : Heap) (refs : List Nat) (baseRef : Nat)
    (i : Nat) (hi : i < h.length) :
    ((mergeH h refs baseRef).1).get? i = h.get? i := by
  unfold mergeH alignH
  cases h1 : step1H h refs with
  | mk hA copies =>
    dsimp only
    have e1 : HeapExt h hA := by have := step1H_ext refs h; rwa [h1] at this
    have e2 : HeapExt hA (step2H hA baseRef copies).1 := step2H_ext copies hA baseRef
    have e := heapExt_trans e1 e2
    cases h2 : step2H hA baseRef copies with
    | mk h' or' =>
      rw [h2] at e
      cases or' with
      | none => exact e.2 i hi
      | some rs => exact e.2 i hi

/-- Witness for C6 at a concrete heap holding a wind dataset and a base. -/
theorem mergeH_preserves_inputs_witness :
    0 < ([windDs, baseDs] : Heap).length ∧
      ((mergeH [windDs, baseDs] [0] 1).1).get? 0 = ([windDs, baseDs] : Heap).get? 0 :=
  ⟨by decide, mergeH_preserves_inputs [windDs, baseDs] [0] 1 0 (by decide)⟩

/-! ### C4: reconciliation of shifted-grid wind datasets -/

theorem lookup_unionAssoc (xs ys : List (String × Variable)) (n : String) :
    (unionAssoc xs ys).lookup n = (xs.lookup n).orElse fun _ => ys.lookup n := by
  unfold unionAssoc
  rw [lookup_append_or]
  cases hx : xs.lookup n with
  | some v => simp
  | none =>
    show ((ys.filter fun kv => (xs.lookup kv.1).isNone).lookup n) = ys.lookup n
    exact lookup_keyFilter (fun k => (xs.lookup k).isNone) ys n (by simp [hx])

theorem lookup_foldUnion (f : Dataset → List (String × Variable)) (l : List Dataset)
    (n : String) :
    ((l.foldr (fun d acc => unionAssoc (f d) acc) []).lookup n) =
      l.findSome? fun d => (f d).lookup n := by
  induction l with
  | nil => rfl
  | cons d t ih =>
    rw [List.foldr_cons, lookup_unionAssoc, List.findSome?_cons, ih]
    cases (f d).lookup n <;> rfl

theorem findSome?_to_mem {α β : Type} (f : α → Option β) (l : List α) (v : β)
    (h : l.findSome? f = some v) : ∃ a ∈ l, f a = some v := by
  induction l with
  | nil => simp [List.findSome?] at h
  | cons a t ih =>
    rw [List.findSome?_cons] at h
    cases ha : f a with
    | some w => rw [ha] at h; exact ⟨a, by simp, ha.trans h⟩
    | none =>
      rw [ha] at h
      obtain ⟨b, hb, hfb⟩ := ih h
      exact ⟨b, by simp [hb], hfb⟩

theorem findSome?_of_mem {α β : Type} (f : α → Option β) (l : List α) (a : α) (v : β)
    (ha : a ∈ l) (hv : f a = some v) : ∃ w, l.findSome? f = some w := by
  induction l with
  | nil => simp at ha
  | cons b t ih =>
    rw [List.findSome?_cons]
    cases hb : f b with
    | some w => exact ⟨w, rfl⟩
    | none =>
      rcases List.mem_cons.mp ha with h | h
      · subst h; rw [hb] at hv; exact absurd hv (by simp)
      · exact ih h

/-- Membership in the name list is the same as a successful `ds[...]`
lookup. -/
theorem mem_allNames_iff (d : Dataset) (n : String) :
    n ∈ allNames d ↔ (getVar d n).isSome := by
  have key : ∀ xs : List (String × Variable), n ∈ xs.map Prod.fst ↔ (xs.lookup n).isSome := by
    intro xs
    induction xs with
    | nil => simp [List.lookup]
    | cons kv t ih =>
      by_cases h : n = kv.1
      · simp [List.lookup, h]
      · have h' : (n == kv.1) = false := by simpa using h
        simp [List.lookup, h', ih, h]
  rw [show allNames d = (d.coords ++ d.data_vars).map Prod.fst from rfl, key, getVar,
    lookup_append_or]

theorem pairCompatible_spec (a b : Dataset) (h : pairCompatible a b = true)
    (n : String) (v1 v2 : Variable) (h1 : getVar a n = some v1) (h2 : getVar b n = some v2) :
    v1 = v2 := by
  have hmem : n ∈ allNames a := (mem_allNames_iff a n).mpr (by simp [h1])
  have := (List.all_eq_true.mp h) n hmem
  rw [h1, h2] at this
  exact of_decide_eq_true this

theorem compat_of_compatible (l : List Dataset) (h : compatible l = true) : Compat l := by
  induction l with
  | nil => intro a ha; simp at ha
  | cons d t ih =>
    have h' := h
    simp only [compatible, Bool.and_eq_true] at h'
    obtain ⟨hall, ht⟩ := h'
    intro a ha b hb n v1 v2 h1 h2
    rcases List.mem_cons.mp ha with rfl | ha' <;> rcases List.mem_cons.mp hb with rfl | hb'
    · rw [h1] at h2; exact Option.some.inj h2
    · exact pairCompatible_spec a b ((List.all_eq_true.mp hall) b hb') n v1 v2 h1 h2
    · exact (pairCompatible_spec b a ((List.all_eq_true.mp hall) a ha') n v2 v1 h2 h1).symm
    · exact ih ht a ha' b hb' n v1 v2 h1 h2

/-- Looking a name up in the merged dataset agrees with any input that
carries it (under compatibility). -/
theorem getVar_merge_of_input (l : List Dataset) (hc : Compat l) (d : Dataset)
    (hd : d ∈ l) (n : String) (v : Variable) (hv : getVar d n = some v) (A : List (String × String)) :
    getVar ⟨mergeDataVars l, mergeCoords l, A⟩ n = some v := by
  have hco : (mergeCoords l).lookup n = l.findSome? fun x => x.coords.lookup n :=
    lookup_foldUnion (fun x => x.coords) l n
  cases hM : (mergeCoords l).lookup n with
  | some w =>
    rw [hM] at hco
    obtain ⟨d', hd', hw⟩ := findSome?_to_mem _ l w hco.symm
    have : getVar d' n = some w := by unfold getVar; rw [hw]; rfl
    have hvw : w = v := hc d' hd' d hd n w v this hv
    show ((mergeCoords l).lookup n).orElse _ = some v
    rw [hM, hvw]; rfl
  | none =>
    have hnone : ∀ d' ∈ l, d'.coords.lookup n = none := by
      intro d' hd'
      cases hx : d'.coords.lookup n with
      | none => rfl
      | some w =>
        obtain ⟨w', hw'⟩ := findSome?_of_mem (fun x => x.coords.lookup n) l d' w hd' hx
        rw [hco, hw'] at hM; exact absurd hM (by simp)
    have hdv : d.data_vars.lookup n = some v := by
      unfold getVar at hv
      rw [hnone d hd] at hv
      exact hv
    have hraw : ((l.foldr (fun x acc => unionAssoc x.data_vars acc) []).lookup n) =
        l.findSome? fun x => x.data_vars.lookup n := lookup_foldUnion (fun x => x.data_vars) l n
    obtain ⟨w, hw⟩ := findSome?_of_mem (fun x => x.data_vars.lookup n) l d v hd hdv
    obtain ⟨d'', hd'', hw''⟩ := findSome?_to_mem _ l w hw
    have hg'' : getVar d'' n = some w := by
      unfold getVar; rw [hnone d'' hd'', hw'']; rfl
    have hwv : w = v := hc d'' hd'' d hd n w v hg'' hv
    show ((mergeCoords l).lookup n).orElse _ = some v
    rw [hM]
    show (mergeDataVars l).lookup n = some v
    unfold mergeDataVars
    have hkf := lookup_keyFilter (fun k => ((mergeCoords l).lookup k).isNone)
      (l.foldr (fun d acc => unionAssoc d.data_vars acc) []) n (by simp [hM])
    exact hkf.trans (hraw.trans (hw.trans (by rw [hwv])))

theorem getVar_setVar_self (d : Dataset) (k : String) (v : Variable) :
    getVar (setVar d k v) k = some v := by
  unfold setVar
  by_cases hc : (d.coords.lookup k).isSome
  · rw [if_pos hc]
    show ((updAssoc d.coords k v).lookup k).orElse _ = some v
    rw [lookup_updAssoc_self]
    obtain ⟨w, hw⟩ := Option.isSome_iff_exists.mp hc
    rw [hw]; rfl
  · rw [if_neg hc]
    by_cases hd : (d.data_vars.lookup k).isSome
    · rw [if_pos hd]
      show (d.coords.lookup k).orElse _ = some v
      rw [Option.not_isSome_iff_eq_none.mp hc]
      show (updAssoc d.data_vars k v).lookup k = some v
      rw [lookup_updAssoc_self]
      obtain ⟨w, hw⟩ := Option.isSome_iff_exists.mp hd
      rw [hw]; rfl
    · by_cases hdim : k ∈ dimsOf d
      · rw [if_neg hd, if_pos hdim]
        show ((d.coords ++ [(k, v)]).lookup k).orElse _ = some v
        rw [lookup_snoc, Option.not_isSome_iff_eq_none.mp hc]
        rfl
      · rw [if_neg hd, if_neg hdim]
        show (d.coords.lookup k).orElse _ = some v
        rw [Option.not_isSome_iff_eq_none.mp hc]
        show (d.data_vars ++ [(k, v)]).lookup k = some v
        rw [lookup_snoc, Option.not_isSome_iff_eq_none.mp hd]
        rfl

theorem getVar_setVar_ne (d : Dataset) (k n : String) (v : Variable) (hnk : ¬(n = k)) :
    getVar (setVar d k v) n = getVar d n := by
  unfold setVar
  by_cases hc : (d.coords.lookup k).isSome
  · rw [if_pos hc]
    show ((updAssoc d.coords k v).lookup n).orElse _ = getVar d n
    rw [lookup_updAssoc_ne d.coords k n v hnk]
    rfl
  · rw [if_neg hc]
    by_cases hd : (d.data_vars.lookup k).isSome
    · rw [if_pos hd]
      show (d.coords.lookup n).orElse _ = getVar d n
      unfold getVar
      cases d.coords.lookup n with
      | some w => rfl
      | none =>
        show (updAssoc d.data_vars k v).lookup n = _
        rw [lookup_updAssoc_ne d.data_vars k n v hnk]
        rfl
    · by_cases hdim : k ∈ dimsOf d
      · rw [if_neg hd, if_pos hdim]
        show ((d.coords ++ [(k, v)]).lookup n).orElse _ = getVar d n
        rw [lookup_snoc_ne d.coords k n v hnk]
        rfl
      · rw [if_neg hd, if_neg hdim]
        show (d.coords.lookup n).orElse _ = getVar d n
        unfold getVar
        cases d.coords.lookup n with
        | some w => rfl
        | none =>
          show (d.data_vars ++ [(k, v)]).lookup n = _
          rw [lookup_snoc_ne d.data_vars k n v hnk]
          rfl

theorem hasWind_drop_height (d : Dataset) : hasWind (drop_vars "height" d) = hasWind d := by
  unfold hasWind drop_vars
  dsimp only
  induction d.data_vars with
  | nil => rfl
  | cons kv t ih =>
    by_cases hh : kv.1 = "height"
    · simp [List.filter_cons, hh, List.any_cons, ih]
    · simp [List.filter_cons, hh, List.any_cons, ih]

/-- Unfolding a successful wind-branch run of `align`'s loop body. -/
theorem alignOne_wind_spec (base x x' : Dataset) (hw : hasWind x = true)
    (h : alignOne base x = some x') :
    ∃ lat lon latb lonb,
      getVar base "latitude" = some lat ∧ getVar base "longitude" = some lon ∧
      getVar base "latitude_bnds" = some latb ∧ getVar base "longitude_bnds" = some lonb ∧
      x' = setVar (setVar (setVar (setVar (isel_lat x) "latitude" lat) "longitude" lon)
        "latitude_bnds" latb) "longitude_bnds" lonb := by
  unfold alignOne at h
  rw [if_pos hw] at h
  dsimp only at h
  cases hlat : getVar base "latitude" with
  | none => rw [hlat] at h; exact absurd h (by simp)
  | some lat =>
    rw [hlat] at h
    cases hlon : getVar base "longitude" with
    | none => rw [hlon] at h; exact absurd h (by simp)
    | some lon =>
      rw [hlon] at h
      cases hlatb : getVar base "latitude_bnds" with
      | none => rw [hlatb] at h; exact absurd h (by simp)
      | some latb =>
        rw [hlatb] at h
        cases hlonb : getVar base "longitude_bnds" with
        | none => rw [hlonb] at h; exact absurd h (by simp)
        | some lonb =>
          rw [hlonb] at h
          exact ⟨lat, lon, latb, lonb, rfl, rfl, rfl, rfl, (Option.some.inj h).symm⟩

theorem mapM_some_forall₂ {α β : Type} (f : α → Option β) (l : List α) (l' : List β)
    (h : l.mapM f = some l') : List.Forall₂ (fun a b => f a = some b) l l' := by
  induction l generalizing l' with
  | nil =>
    rw [List.mapM_nil] at h
    obtain rfl : _ = l' := Option.some.inj h
    exact List.Forall₂.nil
  | cons a t ih =>
    rw [List.mapM_cons] at h
    cases ha : f a with
    | none => rw [ha] at h; exact absurd h (by simp)
    | some b =>
      rw [ha] at h
      cases ht : t.mapM f with
      | none => rw [ht] at h; exact absurd h (by simp)
      | some bs =>
        rw [ht] at h
        obtain rfl : _ = l' := Option.some.inj h
        exact List.Forall₂.cons ha (ih bs ht)

theorem forall₂_mem_left {α β : Type} {r : α → β → Prop} {l : List α} {l' : List β}
    (h : List.Forall₂ r l l') (a : α) (ha : a ∈ l) : ∃ b ∈ l', r a b := by
  induction h with
  | nil => simp at ha
  | cons hr ht ih =>
    rcases List.mem_cons.mp ha with rfl | ha'
    · exact ⟨_, by simp, hr⟩
    · obtain ⟨b, hb, hrb⟩ := ih ha'
      exact ⟨b, by simp [hb], hrb⟩

theorem lookup_map_snd (l : List (String × Variable)) (f : Variable → Variable) (n : String) :
    ((l.map fun kv => (kv.1, f kv.2)).lookup n) = (l.lookup n).map f := by
  induction l with
  | nil => rfl
  | cons kv t ih =>
    by_cases h : n = kv.1
    · simp [List.lookup, h]
    · have h' : (n == kv.1) = false := by simpa using h
      simp [List.lookup, h', ih]

theorem getVar_isel_lat (d : Dataset) (n : String) :
    getVar (isel_lat d) n = (getVar d n).map (sliceFrom1 "latitude") := by
  unfold isel_lat getVar
  dsimp only
  rw [lookup_map_snd, lookup_map_snd]
  cases d.coords.lookup n <;> rfl

/-- A successful loop-body run keeps every (non-`height`) variable name
of its input. -/
theorem alignOne_preserves_names (base x x' : Dataset) (h : alignOne base x = some x')
    (n : String) (hn : (getVar x n).isSome) : (getVar x' n).isSome := by
  by_cases hw : hasWind x = true
  · obtain ⟨lat, lon, latb, lonb, _, _, _, _, rfl⟩ := alignOne_wind_spec base x x' hw h
    by_cases h4 : n = "longitude_bnds"
    · subst h4; simp [getVar_setVar_self]
    · rw [getVar_setVar_ne _ _ _ _ h4]
      by_cases h3 : n = "latitude_bnds"
      · subst h3; simp [getVar_setVar_self]
      · rw [getVar_setVar_ne _ _ _ _ h3]
        by_cases h2 : n = "longitude"
        · subst h2; simp [getVar_setVar_self]
        · rw [getVar_setVar_ne _ _ _ _ h2]
          by_cases h1 : n = "latitude"
          · subst h1; simp [getVar_setVar_self]
          · rw [getVar_setVar_ne _ _ _ _ h1, getVar_isel_lat]
            simpa using hn
  · have hx : x' = x := by
      unfold alignOne at h
      rw [if_neg hw] at h
      exact (Option.some.inj h).symm
    exact hx ▸ hn

theorem lookup_drop_vars (d : Dataset) (n k : String) (hnk : ¬(n = k)) :
    getVar (drop_vars k d) n = getVar d n := by
  unfold drop_vars getVar
  dsimp only
  have h1 := lookup_keyFilter (fun s => !(s = k)) d.coords n (by simpa using hnk)
  have h2 := lookup_keyFilter (fun s => !(s = k)) d.data_vars n (by simpa using hnk)
  rw [show (d.coords.filter fun kv => !(kv.1 = k)) =
      (d.coords.filter fun kv => (fun s => !(s = k)) kv.1) from rfl, h1]
  rw [show (d.data_vars.filter fun kv => !(kv.1 = k)) =
      (d.data_vars.filter fun kv => (fun s => !(s = k)) kv.1) from rfl, h2]

/-- The four grid coordinates of an aligned wind dataset equal the
base's. -/
theorem aligned_wind_coords (X : Dataset) (lat lon latb lonb : Variable) :
    getVar (setVar (setVar (setVar (setVar X "latitude" lat) "longitude" lon)
        "latitude_bnds" latb) "longitude_bnds" lonb) "latitude" = some lat ∧
    getVar (setVar (setVar (setVar (setVar X "latitude" lat) "longitude" lon)
        "latitude_bnds" latb) "longitude_bnds" lonb) "longitude" = some lon ∧
    getVar (setVar (setVar (setVar (setVar X "latitude" lat) "longitude" lon)
        "latitude_bnds" latb) "longitude_bnds" lonb) "latitude_bnds" = some latb ∧
    getVar (setVar (setVar (setVar (setVar X "latitude" lat) "longitude" lon)
        "latitude_bnds" latb) "longitude_bnds" lonb) "longitude_bnds" = some lonb := by
  refine ⟨?_, ?_, ?_, ?_⟩
  · rw [getVar_setVar_ne _ _ _ _ (by decide), getVar_setVar_ne _ _ _ _ (by decide),
      getVar_setVar_ne _ _ _ _ (by decide), getVar_setVar_self]
  · rw [getVar_setVar_ne _ _ _ _ (by decide), getVar_setVar_ne _ _ _ _ (by decide),
      getVar_setVar_self]
  · rw [getVar_setVar_ne _ _ _ _ (by decide), getVar_setVar_self]
  · rw [getVar_setVar_self]

/-- The successful-`align` relation between inputs and aligned outputs. -/
theorem align_forall₂ (datasets : List Dataset) (base : Dataset) (l' : List Dataset)
    (h : align datasets base = some l') :
    List.Forall₂ (fun d d' => alignOne base (drop_vars "height" d) = some d') datasets l' := by
  unfold align at h
  have := mapM_some_forall₂ (alignOne base) (datasets.map fun x => drop_vars "height" x.copy) l' h
  exact List.forall₂_map_left_iff.mp this

/-- C4 (amended): if some input has a shifted-grid wind variable with
one extra latitude row versus the base and the merge is accepted, the
merged dataset's latitude/longitude coordinates and their boundary
arrays are exactly the base's, and every data variable of every input
*other than the vestigial `height` variable* survives into the result.
(The original claim's "none dropped" fails for `height` — see the
counterexample.) -/
theorem merge_wind_reconciles (datasets : List Dataset) (base m : Dataset)
    (hwind : ∃ d ∈ datasets, hasWind d = true ∧
      dimSize d "latitude" = dimSize base "latitude" + 1)
    (hm : merge datasets base = some m) :
    (getVar m "latitude" = getVar base "latitude" ∧
     getVar m "longitude" = getVar base "longitude" ∧
     getVar m "latitude_bnds" = getVar base "latitude_bnds" ∧
     getVar m "longitude_bnds" = getVar base "longitude_bnds") ∧
    (∀ d ∈ datasets, ∀ n, (d.data_vars.lookup n).isSome → ¬(n = "height") →
      n ∈ allNames m) := by
  unfold merge at hm
  cases hal : align datasets base with
  | none => rw [hal] at hm; exact absurd hm (by simp)
  | some l' =>
    rw [hal] at hm
    simp only [Option.some_bind] at hm
    unfold xrMergeExact at hm
    by_cases hcb : compatible l' = true
    · rw [if_pos hcb] at hm
      obtain rfl : _ = m := Option.some.inj hm
      have hc := compat_of_compatible l' hcb
      have hrel := align_forall₂ datasets base l' hal
      obtain ⟨dW, hdW, hwindW, _⟩ := hwind
      obtain ⟨dW', hdW', hrelW⟩ := forall₂_mem_left hrel dW hdW
      have hwW : hasWind (drop_vars "height" dW) = true := by
        rw [hasWind_drop_height]; exact hwindW
      obtain ⟨lat, lon, latb, lonb, hblat, hblon, hblatb, hblonb, rfl⟩ :=
        alignOne_wind_spec base _ dW' hwW hrelW
      obtain ⟨g1, g2, g3, g4⟩ := aligned_wind_coords (isel_lat (drop_vars "height" dW))
        lat lon latb lonb
      constructor
      · refine ⟨?_, ?_, ?_, ?_⟩
        · rw [getVar_merge_of_input l' hc _ hdW' "latitude" lat g1 _, hblat]
        · rw [getVar_merge_of_input l' hc _ hdW' "longitude" lon g2 _, hblon]
        · rw [getVar_merge_of_input l' hc _ hdW' "latitude_bnds" latb g3 _, hblatb]
        · rw [getVar_merge_of_input l' hc _ hdW' "longitude_bnds" lonb g4 _, hblonb]
      · intro d hd n hn hne
        obtain ⟨d', hd', hrd⟩ := forall₂_mem_left hrel d hd
        have hxn : (getVar (drop_vars "height" d) n).isSome := by
          rw [lookup_drop_vars d n "height" hne]
          unfold getVar
          cases d.coords.lookup n with
          | some w => rfl
          | none => exact hn
        have hd'n : (getVar d' n).isSome := alignOne_preserves_names base _ d' hrd n hxn
        obtain ⟨v, hv⟩ := Option.isSome_iff_exists.mp hd'n
        exact (mem_allNames_iff _ n).mpr
          (by rw [getVar_merge_of_input l' hc d' hd' n v hv _]; rfl)
    · rw [if_neg hcb] at hm
      exact absurd hm (by simp)

/-- Counterexample to C4 as stated: `windDs` carries the wind variable
`sfcWind` with one extra latitude row versus `baseDs` *and* a `height`
data variable; the merge is accepted but `height` is dropped, so the
result does not contain every data variable of every input. -/
theorem merge_wind_drops_height_counterexample :
    (∃ d ∈ [windDs], hasWind d = true ∧
      dimSize d "latitude" = dimSize baseDs "latitude" + 1) ∧
    ("height" ∈ windDs.data_vars.map Prod.fst) ∧
    merge [windDs] baseDs =
      some ⟨[("sfcWind", ⟨["latitude", "longitude"], [1, 1], [8], []⟩),
             ("latitude_bnds", latBnds1), ("longitude_bnds", lonBnds)],
            [("latitude", latVar1), ("longitude", lonVar)], []⟩ ∧
    ¬("height" ∈ allNames ⟨[("sfcWind", ⟨["latitude", "longitude"], [1, 1], [8], []⟩),
             ("latitude_bnds", latBnds1), ("longitude_bnds", lonBnds)],
            [("latitude", latVar1), ("longitude", lonVar)], []⟩) := by
  refine ⟨⟨windDs, by decide⟩, by decide, by decide, by decide⟩

/-- Witness for the amended C4 at concrete datasets. -/
theorem merge_wind_reconciles_witness :
    (∃ d ∈ [windDsNoH], hasWind d = true ∧
      dimSize d "latitude" = dimSize baseDs "latitude" + 1) ∧
    (∃ m, merge [windDsNoH] baseDs = some m ∧ getVar m "latitude" = getVar baseDs "latitude") := by
  refine ⟨⟨windDsNoH, by decide⟩, ?_⟩
  cases hm : merge [windDsNoH] baseDs with
  | none => exact absurd hm (by decide)
  | some m =>
    exact ⟨m, rfl, (merge_wind_reconciles [windDsNoH] baseDs m ⟨windDsNoH, by decide⟩ hm).1.1⟩

/-! ### C8 and C10: the item builder -/

theorem addAssetStep_spec (aef : List (String × String)) (st : ItemRec × Parts)
    (path : List Char) (st' : ItemRec × Parts) (h : addAssetStep aef st path = some st') :
    ∃ p, from_filename path = some p ∧
      st' = ({ st.1 with assets := setAssoc st.1.assets p.varname (Asset.mk path "application/netcdf" ["data"] aef) }, p) := by
  unfold addAssetStep at h
  cases hp : from_filename path with
  | none => rw [hp] at h; exact absurd h (by simp)
  | some p => rw [hp] at h; exact ⟨p, rfl, (Option.some.inj h).symm⟩

theorem getLast?_mem {α : Type} (l : List α) (a : α) (h : l.getLast? = some a) : a ∈ l := by
  induction l with
  | nil => simp at h
  | cons x t ih =>
    cases t with
    | nil => simp_all
    | cons y t' =>
      rw [List.getLast?_cons_cons] at h
      exact List.mem_cons_of_mem x (ih h)

theorem getLast?_cons_of_getLast? {α : Type} (l : List α) (x a : α)
    (h : l.getLast? = some a) : (x :: l).getLast? = some a := by
  cases l with
  | nil => simp at h
  | cons y t => rw [List.getLast?_cons_cons]; exact h

/-- After a successful run of the asset loop, the item's `id` and
`properties` are those of the initial state: the loop touches only the
assets. -/
theorem assets_loop_fields (aef : List (String × String)) (urls : List (List Char)) :
    ∀ st st' : ItemRec × Parts, urls.foldlM (addAssetStep aef) st = some st' →
      st'.1.id = st.1.id ∧ st'.1.properties = st.1.properties ∧
      st'.1.cube = st.1.cube ∧ st'.1.bbox = st.1.bbox := by
  induction urls with
  | nil =>
    intro st st' h
    obtain rfl : st = st' := Option.some.inj h
    exact ⟨rfl, rfl, rfl, rfl⟩
  | cons u t ih =>
    intro st st' h
    rw [List.foldlM_cons] at h
    cases ha : addAssetStep aef st u with
    | none => rw [ha] at h; exact absurd h (by simp)
    | some st1 =>
      rw [ha] at h
      have h' : t.foldlM (addAssetStep aef) st1 = some st' := h
      obtain ⟨p, hp, rfl⟩ := addAssetStep_spec aef st u st1 ha
      have res := ih _ st' h'
      exact ⟨res.1, res.2.1, res.2.2.1, res.2.2.2⟩

/-- After a successful run of the asset loop over a nonempty url list,
the loop variable `parts` holds the identity of the last url. -/
theorem assets_loop_last (aef : List (String × String)) (urls : List (List Char)) :
    ∀ st st' : ItemRec × Parts, urls.foldlM (addAssetStep aef) st = some st' →
      (urls = [] ∧ st' = st) ∨
      (∃ uN, urls.getLast? = some uN ∧ from_filename uN = some st'.2) := by
  induction urls with
  | nil =>
    intro st st' h
    exact Or.inl ⟨rfl, (Option.some.inj h).symm⟩
  | cons u t ih =>
    intro st st' h
    rw [List.foldlM_cons] at h
    cases ha : addAssetStep aef st u with
    | none => rw [ha] at h; exact absurd h (by simp)
    | some st1 =>
      rw [ha] at h
      have h' : t.foldlM (addAssetStep aef) st1 = some st' := h
      obtain ⟨p, hp, hst1⟩ := addAssetStep_spec aef st u st1 ha
      rcases ih st1 st' h' with ⟨rfl, rfl⟩ | ⟨uN, hN, hfN⟩
      · refine Or.inr ⟨u, rfl, ?_⟩
        rw [hst1]
        exact hp
      · exact Or.inr ⟨uN, getLast?_cons_of_getLast? t u uN hN, hfN⟩

/-- An asset key present with a NetCDF data asset stays present through
the rest of the loop (a later file with the same variable name replaces
the asset by another NetCDF data asset). -/
theorem assets_loop_persist (aef : List (String × String)) (urls : List (List Char)) :
    ∀ st st' : ItemRec × Parts, urls.foldlM (addAssetStep aef) st = some st' →
      ∀ k a, st.1.assets.lookup k = some a →
        a.media_type = "application/netcdf" → a.roles = ["data"] →
        ∃ a', st'.1.assets.lookup k = some a' ∧
          a'.media_type = "application/netcdf" ∧ a'.roles = ["data"] := by
  induction urls with
  | nil =>
    intro st st' h k a ha hm hr
    obtain rfl : st = st' := Option.some.inj h
    exact ⟨a, ha, hm, hr⟩
  | cons u t ih =>
    intro st st' h k a ha hm hr
    rw [List.foldlM_cons] at h
    cases hstep : addAssetStep aef st u with
    | none => rw [hstep] at h; exact absurd h (by simp)
    | some st1 =>
      rw [hstep] at h
      have h' : t.foldlM (addAssetStep aef) st1 = some st' := h
      obtain ⟨p, hp, rfl⟩ := addAssetStep_spec aef st u st1 hstep
      by_cases hk : k = p.varname
      · subst hk
        exact ih _ st' h' p.varname _ (lookup_setAssoc_self _ _ _) rfl rfl
      · refine ih _ st' h' k a ?_ hm hr
        show (setAssoc st.1.assets p.varname
          (Asset.mk u "application/netcdf" ["data"] aef)).lookup k = some a
        rw [lookup_setAssoc_ne _ _ _ _ hk]
        exact ha

/-- Every url of a successful loop run leaves a NetCDF data asset under
its parsed variable name. -/
theorem assets_loop_mem (aef : List (String × String)) (urls : List (List Char)) :
    ∀ st st' : ItemRec × Parts, urls.foldlM (addAssetStep aef) st = some st' →
      ∀ u ∈ urls, ∃ p a, from_filename u = some p ∧
        st'.1.assets.lookup p.varname = some a ∧
        a.media_type = "application/netcdf" ∧ a.roles = ["data"] := by
  induction urls with
  | nil => intro st st' h u hu; simp at hu
  | cons w t ih =>
    intro st st' h u hu
    rw [List.foldlM_cons] at h
    cases hstep : addAssetStep aef st w with
    | none => rw [hstep] at h; exact absurd h (by simp)
    | some st1 =>
      rw [hstep] at h
      have h' : t.foldlM (addAssetStep aef) st1 = some st' := h
      obtain ⟨p, hp, rfl⟩ := addAssetStep_spec aef st w st1 hstep
      rcases List.mem_cons.mp hu with rfl | hu'
      · obtain ⟨a', ha', hm', hr'⟩ := assets_loop_persist aef t _ st' h' p.varname _
          (lookup_setAssoc_self _ _ _) rfl rfl
        exact ⟨p, a', hp, ha', hm', hr'⟩
      · exact ih _ st' h' u hu'

/-- C8 (amended): for every input accepted by `create_item`, each input
file leaves a data asset stored under that file's parsed variable name,
with NetCDF media type and role `data` — but assets are keyed by
variable name, so a later file with the same variable name overwrites
the earlier file's asset, and files sharing a variable name share one
asset (see the counterexample to the per-file reading). -/
theorem create_item_asset_per_variable (openDs : List Char → Dataset)
    (cubeOf : Dataset → List (String × DatacubeDimension))
    (propsOf : Dataset → List (String × PropVal)) (enc : String → String)
    (aef : List (String × String)) (urls : List (List Char)) (item : ItemRec)
    (h : create_item openDs cubeOf propsOf enc aef urls = some item) :
    ∀ u ∈ urls, ∃ p a, from_filename u = some p ∧
      item.assets.lookup p.varname = some a ∧
      a.media_type = "application/netcdf" ∧ a.roles = ["data"] := by
  unfold create_item at h
  dsimp only at h
  simp only [Option.bind_eq_bind', Option.bind_eq_some, Option.pure_def,
    Option.some.injEq] at h
  obtain ⟨base, hh, ds, hmg, u0, hu0, p0, hp0, st, hst, hitem⟩ := h
  intro u hu
  obtain ⟨p, a, hp, ha, hm', hr'⟩ := assets_loop_mem aef urls _ st hst u hu
  refine ⟨p, a, hp, ?_, hm', hr'⟩
  rw [← hitem]
  exact ha

theorem xstac_item_keeps_template_prop
    (cubeOf : Dataset → List (String × DatacubeDimension))
    (propsOf : Dataset → List (String × PropVal)) (ds : Dataset) (t : ItemRec)
    (n : String) (v : PropVal) (hv : t.properties.lookup n = some v) :
    (xarray_to_stac_item cubeOf propsOf ds t).properties.lookup n = some v := by
  unfold xarray_to_stac_item
  dsimp only
  rw [lookup_append_or, hv]
  rfl

/-- Counterexample to C8 as stated ("at least one data asset per input
file"): two distinct accepted urls with the same variable token produce
a single asset, holding the second url — the first file has no asset. -/
theorem create_item_asset_count_counterexample :
    urlTas1 ≠ urlTas2 ∧
    (create_item (fun _ => tasDs) (fun _ => []) (fun _ => []) id [] [urlTas1, urlTas2]).map
        (fun it => it.assets.map fun kv => kv.2.href) = some [urlTas2] ∧
    ([urlTas1, urlTas2] : List (List Char)).length = 2 := by
  refine ⟨by decide, by decide, by decide⟩

/-- Witness for the amended C8 at concrete inputs. -/
theorem create_item_asset_per_variable_witness :
    ∃ item, create_item (fun _ => tasDs) (fun _ => []) (fun _ => []) id [] [urlTas1, urlTas2]
        = some item ∧
      ∀ u ∈ ([urlTas1, urlTas2] : List (List Char)), ∃ p a, from_filename u = some p ∧
        item.assets.lookup p.varname = some a ∧
        a.media_type = "application/netcdf" ∧ a.roles = ["data"] := by
  cases hm : create_item (fun _ => tasDs) (fun _ => []) (fun _ => []) id [] [urlTas1, urlTas2] with
  | none => exact absurd hm (by decide)
  | some item =>
    exact ⟨item, rfl,
      create_item_asset_per_variable (fun _ => tasDs) (fun _ => []) (fun _ => []) id []
        [urlTas1, urlTas2] item hm⟩

/-- C10: on a successful `create_item`, the custom properties
`ukcp18:member_id` and `ukcp18:temporal_resolution` come from the *last*
url's identity (the asset loop reuses the `parts` variable), while the
item's id and the start/end datetime properties come from the *first*
url; when every url parses to the first url's identity the two
coincide. -/
theorem create_item_props_from_last_id_from_first (openDs : List Char → Dataset)
    (cubeOf : Dataset → List (String × DatacubeDimension))
    (propsOf : Dataset → List (String × PropVal)) (enc : String → String)
    (aef : List (String × String)) (urls : List (List Char)) (item : ItemRec)
    (h : create_item openDs cubeOf propsOf enc aef urls = some item) :
    ∃ u0 uN p0 pN, urls.head? = some u0 ∧ urls.getLast? = some uN ∧
      from_filename u0 = some p0 ∧ from_filename uN = some pN ∧
      item.id = p0.item_id ∧
      getProp item "start_datetime" = some (.str (isoformat p0.start_datetime ++ ['Z'])) ∧
      getProp item "end_datetime" = some (.str (isoformat p0.end_datetime ++ ['Z'])) ∧
      getProp item "ukcp18:member_id" = some (.int pN.member_id) ∧
      getProp item "ukcp18:temporal_resolution" = some (.str pN.temporal_resolution) ∧
      ((∀ u ∈ urls, from_filename u = some p0) → pN = p0) := by
  unfold create_item at h
  dsimp only at h
  simp only [Option.bind_eq_bind', Option.bind_eq_some, Option.pure_def,
    Option.some.injEq] at h
  obtain ⟨base, hh, ds, hmg, u0, hu0, p0, hp0, st, hst, hitem⟩ := h
  rcases assets_loop_last aef urls _ st hst with ⟨hnil, rfl⟩ | ⟨uN, hN, hfN⟩
  · subst hnil; exact absurd hu0 (by simp)
  have hfl := assets_loop_fields aef urls _ st hst
  have hsp : List.lookup "start_datetime" st.1.properties
      = some (PropVal.str (isoformat p0.start_datetime ++ ['Z'])) := by
    rw [hfl.2.1]
    exact xstac_item_keeps_template_prop cubeOf propsOf (encode_attrs enc ds) _
      "start_datetime" _ rfl
  have hep : List.lookup "end_datetime" st.1.properties
      = some (PropVal.str (isoformat p0.end_datetime ++ ['Z'])) := by
    rw [hfl.2.1]
    exact xstac_item_keeps_template_prop cubeOf propsOf (encode_attrs enc ds) _
      "end_datetime" _ rfl
  refine ⟨u0, uN, p0, st.2, hu0, hN, hp0, hfN, ?_, ?_, ?_, ?_, ?_, ?_⟩
  · rw [← hitem]; exact hfl.1
  · rw [← hitem]
    show List.lookup "start_datetime" (setAssoc (setAssoc st.1.properties "ukcp18:member_id"
      (PropVal.int st.2.member_id)) "ukcp18:temporal_resolution"
      (PropVal.str st.2.temporal_resolution)) = _
    rw [lookup_setAssoc_ne _ _ _ _ (by decide), lookup_setAssoc_ne _ _ _ _ (by decide)]
    exact hsp
  · rw [← hitem]
    show List.lookup "end_datetime" (setAssoc (setAssoc st.1.properties "ukcp18:member_id"
      (PropVal.int st.2.member_id)) "ukcp18:temporal_resolution"
      (PropVal.str st.2.temporal_resolution)) = _
    rw [lookup_setAssoc_ne _ _ _ _ (by decide), lookup_setAssoc_ne _ _ _ _ (by decide)]
    exact hep
  · rw [← hitem]
    show List.lookup "ukcp18:member_id" (setAssoc (setAssoc st.1.properties "ukcp18:member_id"
      (PropVal.int st.2.member_id)) "ukcp18:temporal_resolution"
      (PropVal.str st.2.temporal_resolution)) = _
    rw [lookup_setAssoc_ne _ _ _ _ (by decide), lookup_setAssoc_self]
  · rw [← hitem]
    show List.lookup "ukcp18:temporal_resolution" (setAssoc (setAssoc st.1.properties
      "ukcp18:member_id" (PropVal.int st.2.member_id)) "ukcp18:temporal_resolution"
      (PropVal.str st.2.temporal_resolution)) = _
    rw [lookup_setAssoc_self]
  · intro hall
    have hmem : uN ∈ urls := getLast?_mem urls uN hN
    exact Option.some.inj (hfN.symm.trans (hall uN hmem))

/-- Witness for C10 at concrete inputs whose first and last urls carry
different ensemble members. -/
theorem create_item_props_from_last_witness :
    ∃ item, create_item (fun _ => tasDs) (fun _ => []) (fun _ => []) id [] [urlTas1, urlTas3]
        = some item ∧
      ∃ u0 uN p0 pN, ([urlTas1, urlTas3] : List (List Char)).head? = some u0 ∧
        ([urlTas1, urlTas3] : List (List Char)).getLast? = some uN ∧
        from_filename u0 = some p0 ∧ from_filename uN = some pN ∧
        item.id = p0.item_id ∧
        getProp item "start_datetime" = some (.str (isoformat p0.start_datetime ++ ['Z'])) ∧
        getProp item "end_datetime" = some (.str (isoformat p0.end_datetime ++ ['Z'])) ∧
        getProp item "ukcp18:member_id" = some (.int pN.member_id) ∧
        getProp item "ukcp18:temporal_resolution" = some (.str pN.temporal_resolution) ∧
        ((∀ u ∈ ([urlTas1, urlTas3] : List (List Char)), from_filename u = some p0) → pN = p0) := by
  cases hm : create_item (fun _ => tasDs) (fun _ => []) (fun _ => []) id [] [urlTas1, urlTas3] with
  | none => exact absurd hm (by decide)
  | some item =>
    exact ⟨item, rfl,
      create_item_props_from_last_id_from_first (fun _ => tasDs) (fun _ => []) (fun _ => []) id []
        [urlTas1, urlTas3] item hm⟩

/-! ### C3: injectivity of the canonical identifier -/

theorem charsVal_append_digit (l : List Char) (c : Char) :
    charsVal (l ++ [c]) = 10 * charsVal l + charVal c := by
  unfold charsVal
  rw [List.foldl_append]
  rfl

theorem charVal_digitChar (d : Nat) (h : d < 10) : charVal (Nat.digitChar d) = d := by
  interval_cases d <;> decide

theorem isDigit_digitChar (d : Nat) (h : d < 10) : isDigit (Nat.digitChar d) = true := by
  interval_cases d <;> decide

theorem toDigitsAux_spec (fuel : Nat) :
    ∀ n, n < fuel → charsVal (toDigitsAux fuel n) = n ∧
      (∀ c ∈ toDigitsAux fuel n, isDigit c = true) ∧ toDigitsAux fuel n ≠ [] := by
  induction fuel with
  | zero => intro n h; omega
  | succ fuel ih =>
    intro n h
    by_cases h10 : n < 10
    · unfold toDigitsAux
      rw [if_pos h10]
      refine ⟨?_, ?_, by simp⟩
      · show charsVal [Nat.digitChar n] = n
        unfold charsVal
        rw [List.foldl_cons, List.foldl_nil]
        rw [show 10 * 0 + charVal (Nat.digitChar n) = charVal (Nat.digitChar n) by omega]
        exact charVal_digitChar n h10
      · intro c hc
        rw [List.mem_singleton] at hc
        subst hc
        exact isDigit_digitChar n h10
    · unfold toDigitsAux
      rw [if_neg h10]
      have hdiv : n / 10 < fuel := by
        have h1 : n / 10 < n := Nat.div_lt_self (by omega) (by omega)
        omega
      obtain ⟨hv, hd, hne⟩ := ih (n / 10) hdiv
      refine ⟨?_, ?_, by simp [hne]⟩
      · rw [charsVal_append_digit, hv, charVal_digitChar _ (Nat.mod_lt _ (by omega))]
        omega
      · intro c hc
        rcases List.mem_append.mp hc with h1 | h1
        · exact hd c h1
        · rw [List.mem_singleton] at h1
          subst h1
          exact isDigit_digitChar _ (Nat.mod_lt _ (by omega))

theorem natToChars_spec (n : Nat) :
    charsVal (natToChars n) = n ∧ (∀ c ∈ natToChars n, isDigit c = true) ∧
      natToChars n ≠ [] :=
  toDigitsAux_spec (n + 1) n (by omega)

theorem toDigitsAux_length_le (fuel : Nat) :
    ∀ n k, n < fuel → 1 ≤ k → n < 10 ^ k → (toDigitsAux fuel n).length ≤ k := by
  induction fuel with
  | zero => intro n k h; omega
  | succ fuel ih =>
    intro n k h hk hn
    by_cases h10 : n < 10
    · unfold toDigitsAux
      rw [if_pos h10]
      simpa using hk
    · unfold toDigitsAux
      rw [if_neg h10]
      rw [List.length_append, List.length_singleton]
      have hk2 : 2 ≤ k := by
        by_contra hlt
        have hk1 : k = 1 := by omega
        subst hk1
        simp [pow_one] at hn
        omega
      have hdivpow : n / 10 < 10 ^ (k - 1) := by
        rw [Nat.div_lt_iff_lt_mul (by omega)]
        calc n < 10 ^ k := hn
          _ = 10 ^ (k - 1) * 10 := by
            rw [← pow_succ]
            congr 1
            omega
      have hdiv : n / 10 < fuel := by
        have h1 : n / 10 < n := Nat.div_lt_self (by omega) (by omega)
        omega
      have := ih (n / 10) (k - 1) hdiv (by omega) hdivpow
      omega

theorem natToChars_length_le (n k : Nat) (hk : 1 ≤ k) (hn : n < 10 ^ k) :
    (natToChars n).length ≤ k :=
  toDigitsAux_length_le (n + 1) n k (by omega) hk hn

theorem padZero_length (w : Nat) (cs : List Char) (h : cs.length ≤ w) :
    (padZero w cs).length = w := by
  unfold padZero
  rw [List.length_append, List.length_replicate]
  omega

theorem charsVal_replicate_zero (k : Nat) (l : List Char) :
    charsVal (List.replicate k '0' ++ l) = charsVal l := by
  induction k with
  | zero => rfl
  | succ k ih =>
    rw [List.replicate_succ, List.cons_append]
    show List.foldl (fun a c => 10 * a + charVal c) 0 ('0' :: (List.replicate k '0' ++ l)) =
      charsVal l
    rw [List.foldl_cons, show (10 * 0 + charVal '0') = 0 from by decide]
    exact ih

theorem charsVal_padZero_natToChars (w n : Nat) :
    charsVal (padZero w (natToChars n)) = n := by
  unfold padZero
  rw [charsVal_replicate_zero]
  exact (natToChars_spec n).1

theorem padZero_natToChars_digits (w n : Nat) :
    ∀ c ∈ padZero w (natToChars n), isDigit c = true := by
  intro c hc
  rcases List.mem_append.mp hc with h1 | h1
  · rw [List.eq_of_mem_replicate h1]
    decide
  · exact (natToChars_spec n).2.1 c h1

theorem not_dash_of_isDigit (c : Char) (h : isDigit c = true) : ¬(c = '-') := by
  intro hc
  rw [hc] at h
  exact absurd h (by decide)

theorem isoformat_length (t : Datetime) (h : ValidDate t) : (isoformat t).length = 19 := by
  obtain ⟨hy1, hy2, hm1, hm2, hd1, hd2⟩ := h
  have hdm : daysInMonth t.year t.month ≤ 31 := by
    unfold daysInMonth
    split
    · split <;> omega
    · split <;> omega
  unfold isoformat
  simp only [List.length_append, List.length_cons,
    padZero_length 4 _ (natToChars_length_le t.year 4 (by omega) (by omega)),
    padZero_length 2 _ (natToChars_length_le t.month 2 (by omega) (by omega)),
    padZero_length 2 _ (natToChars_length_le t.day 2 (by omega) (by omega))]
  rfl

theorem isoformat_inj (t1 t2 : Datetime) (h1 : ValidDate t1) (h2 : ValidDate t2)
    (h : isoformat t1 = isoformat t2) : t1 = t2 := by
  have hdm1 : daysInMonth t1.year t1.month ≤ 31 := by
    unfold daysInMonth
    split
    · split <;> omega
    · split <;> omega
  have hdm2 : daysInMonth t2.year t2.month ≤ 31 := by
    unfold daysInMonth
    split
    · split <;> omega
    · split <;> omega
  obtain ⟨hy1, hy2, hm1, hm2, hd1, hd2⟩ := h1
  obtain ⟨hy1', hy2', hm1', hm2', hd1', hd2'⟩ := h2
  unfold isoformat at h
  simp only [List.append_assoc, List.cons_append] at h
  obtain ⟨hy, h⟩ := List.append_inj h (by
    rw [padZero_length 4 _ (natToChars_length_le t1.year 4 (by omega) (by omega)),
      padZero_length 4 _ (natToChars_length_le t2.year 4 (by omega) (by omega))])
  obtain ⟨-, h⟩ := List.cons.inj h
  obtain ⟨hm, h⟩ := List.append_inj h (by
    rw [padZero_length 2 _ (natToChars_length_le t1.month 2 (by omega) (by omega)),
      padZero_length 2 _ (natToChars_length_le t2.month 2 (by omega) (by omega))])
  obtain ⟨-, h⟩ := List.cons.inj h
  obtain ⟨hd, -⟩ := List.append_inj h (by
    rw [padZero_length 2 _ (natToChars_length_le t1.day 2 (by omega) (by omega)),
      padZero_length 2 _ (natToChars_length_le t2.day 2 (by omega) (by omega))])
  have ey : t1.year = t2.year := by
    have := congrArg charsVal hy
    rwa [charsVal_padZero_natToChars, charsVal_padZero_natToChars] at this
  have em : t1.month = t2.month := by
    have := congrArg charsVal hm
    rwa [charsVal_padZero_natToChars, charsVal_padZero_natToChars] at this
  have ed : t1.day = t2.day := by
    have := congrArg charsVal hd
    rwa [charsVal_padZero_natToChars, charsVal_padZero_natToChars] at this
  cases t1
  cases t2
  simp_all

theorem append_sep_inj (d : Char) (x : List Char) :
    ∀ x' y y' : List Char, d ∉ x → d ∉ x' → x ++ d :: y = x' ++ d :: y' →
      x = x' ∧ y = y' := by
  induction x with
  | nil =>
    intro x' y y' _ hx' h
    cases x' with
    | nil => exact ⟨rfl, (List.cons.inj h).2⟩
    | cons b t =>
      obtain ⟨hbd, -⟩ := List.cons.inj h
      exact absurd (List.mem_cons_self b t) (by rw [← hbd] at hx' ⊢; exact fun hm => hx' hm)
  | cons a t ih =>
    intro x' y y' hx hx' h
    cases x' with
    | nil =>
      obtain ⟨had, -⟩ := List.cons.inj h
      exact absurd (List.mem_cons_self a t) (by rw [had] at hx ⊢; exact fun hm => hx hm)
    | cons b t' =>
      obtain ⟨hab, hrest⟩ := List.cons.inj h
      obtain ⟨ht, hy⟩ := ih t' y y' (fun hm => hx (List.mem_cons_of_mem a hm))
        (fun hm => hx' (List.mem_cons_of_mem b hm)) hrest
      exact ⟨by rw [hab, ht], hy⟩

/-- C3: on identities satisfying the data model (resolution in
{day, mon}, valid calendar dates; the scenario is an arbitrary string
and the member id an arbitrary natural number), `Parts.item_id` is a
pure function of and injective in the tuple (resolution, scenario,
member id, start, end). -/
theorem item_id_injective (p q : Parts) (hp : ModelParts p) (hq : ModelParts q) :
    Parts.item_id p = Parts.item_id q ↔
      (p.temporal_resolution = q.temporal_resolution ∧ p.scenario = q.scenario ∧
       p.member_id = q.member_id ∧ p.start_datetime = q.start_datetime ∧
       p.end_datetime = q.end_datetime) := by
  constructor
  · intro h
    unfold Parts.item_id at h
    obtain ⟨h, hE⟩ := List.append_inj' h (by
      simp [isoformat_length _ hp.2.2, isoformat_length _ hq.2.2])
    obtain ⟨h, hS⟩ := List.append_inj' h (by
      simp [isoformat_length _ hp.2.1, isoformat_length _ hq.2.1])
    have hEnd : p.end_datetime = q.end_datetime := by
      obtain ⟨-, hE'⟩ := List.cons.inj hE
      obtain ⟨hiso, -⟩ := List.append_inj' hE' rfl
      exact isoformat_inj _ _ hp.2.2 hq.2.2 hiso
    have hStart : p.start_datetime = q.start_datetime := by
      obtain ⟨-, hS'⟩ := List.cons.inj hS
      obtain ⟨hiso, -⟩ := List.append_inj' hS' rfl
      exact isoformat_inj _ _ hp.2.1 hq.2.1 hiso
    have hrev := congrArg List.reverse h
    simp only [List.reverse_append, List.reverse_cons, List.append_assoc, List.cons_append,
      List.nil_append, List.singleton_append] at hrev
    have hx1 : '-' ∉ (natToChars p.member_id).reverse := fun hm =>
      not_dash_of_isDigit _ ((natToChars_spec p.member_id).2.1 _ (List.mem_reverse.mp hm)) rfl
    have hx2 : '-' ∉ (natToChars q.member_id).reverse := fun hm =>
      not_dash_of_isDigit _ ((natToChars_spec q.member_id).2.1 _ (List.mem_reverse.mp hm)) rfl
    obtain ⟨hmemRev, hA⟩ := append_sep_inj '-' _ _ _ _ hx1 hx2 hrev
    have hMem : p.member_id = q.member_id := by
      have h2 := congrArg charsVal (List.reverse_inj.mp hmemRev)
      rwa [(natToChars_spec p.member_id).1, (natToChars_spec q.member_id).1] at h2
    have hA2 := congrArg List.reverse hA
    simp only [List.reverse_append, List.reverse_cons, List.reverse_reverse,
      List.append_assoc, List.cons_append, List.nil_append, List.singleton_append] at hA2
    have lres1 : p.temporal_resolution.length = 3 := by
      rcases hp.1 with h' | h' <;> rw [h'] <;> rfl
    have lres2 : q.temporal_resolution.length = 3 := by
      rcases hq.1 with h' | h' <;> rw [h'] <;> rfl
    simp only [List.reverse_nil, List.nil_append, List.cons.injEq, true_and] at hA2
    obtain ⟨hres, hscen'⟩ := List.append_inj hA2 (by rw [lres1, lres2])
    exact ⟨hres, (List.cons.inj hscen').2, hMem, hStart, hEnd⟩
  · rintro ⟨h1, h2, h3, h4, h5⟩
    unfold Parts.item_id
    rw [h1, h2, h3, h4, h5]

/-- Witness for C3 at two concrete identities differing only in the
ensemble member. -/
theorem item_id_injective_witness :
    ModelParts partsFixA ∧ ModelParts partsFixB ∧
      (Parts.item_id partsFixA = Parts.item_id partsFixB ↔
        (partsFixA.temporal_resolution = partsFixB.temporal_resolution ∧
         partsFixA.scenario = partsFixB.scenario ∧
         partsFixA.member_id = partsFixB.member_id ∧
         partsFixA.start_datetime = partsFixB.start_datetime ∧
         partsFixA.end_datetime = partsFixB.end_datetime)) :=
  ⟨by decide, by decide, item_id_injective partsFixA partsFixB (by decide) (by decide)⟩

/-! ### C9: parsed identities carry valid dates but no ordering check -/

theorem charVal_le_9 (c : Char) (h : isDigit c = true) : charVal c ≤ 9 := by
  unfold isDigit Char.isDigit at h
  simp only [Bool.and_eq_true, decide_eq_true_eq] at h
  obtain ⟨h1, h2⟩ := h
  have h2' : c.val.toNat ≤ (57 : UInt32).toNat := h2
  have e2 : (57 : UInt32).toNat = 57 := rfl
  unfold charVal
  rw [show ('0').toNat = 48 from rfl]
  unfold Char.toNat
  omega

theorem strptime8_valid (cs : List Char) (t : Datetime) (h : strptime8 cs = some t) :
    ValidDate t := by
  unfold strptime8 at h
  split at h
  next y1 y2 y3 y4 m1 m2 d1 d2 =>
    split at h
    next hdig =>
      dsimp only at h
      split at h
      next hb =>
        obtain rfl : _ = t := Option.some.inj h
        simp only [List.all_cons, List.all_nil, Bool.and_eq_true, and_true] at hdig
        obtain ⟨q1, q2, q3, q4, -, -, -, -⟩ := hdig
        have b1 := charVal_le_9 _ q1
        have b2 := charVal_le_9 _ q2
        have b3 := charVal_le_9 _ q3
        have b4 := charVal_le_9 _ q4
        obtain ⟨c1, c2, c3, c4, c5⟩ := hb
        refine ⟨c1, ?_, c2, c3, c4, c5⟩
        show charsVal [y1, y2, y3, y4] ≤ 9999
        unfold charsVal
        simp only [List.foldl_cons, List.foldl_nil]
        omega
      next => exact absurd h (by simp)
    next => exact absurd h (by simp)
  next => exact absurd h (by simp)

/-- `from_filename` as an explicit chain of `Option.bind`s. -/
theorem from_filename_eq (f : List Char) :
    from_filename f = (xprMatch (basename f)).bind (fun g =>
      (strptime8 g.start_datetime).bind (fun sd =>
        (strptime8 g.end_datetime).bind (fun ed =>
          some ⟨g.scenario, charsVal g.member_id, g.varname, g.temporal_resolution, sd, ed,
            basename f⟩))) := rfl

/-- C9 (amended): every successfully parsed identity carries two valid
calendar dates (`strptime` validates each token), but the parser
performs no ordering check — `start ≤ end` is not an invariant of
parsing (see the counterexample). -/
theorem from_filename_valid_dates (f : List Char) (p : Parts)
    (h : from_filename f = some p) :
    ValidDate p.start_datetime ∧ ValidDate p.end_datetime := by
  rw [from_filename_eq] at h
  cases hg : xprMatch (basename f) with
  | none => rw [hg] at h; exact absurd h (by simp)
  | some g =>
    rw [hg] at h
    have h2 : (strptime8 g.start_datetime).bind (fun sd =>
        (strptime8 g.end_datetime).bind (fun ed =>
          some ⟨g.scenario, charsVal g.member_id, g.varname, g.temporal_resolution, sd, ed,
            basename f⟩)) = some p := h
    cases hs : strptime8 g.start_datetime with
    | none => rw [hs] at h2; exact absurd h2 (by simp)
    | some sd =>
      rw [hs] at h2
      have h3 : (strptime8 g.end_datetime).bind (fun ed =>
          some ⟨g.scenario, charsVal g.member_id, g.varname, g.temporal_resolution, sd, ed,
            basename f⟩) = some p := h2
      cases he : strptime8 g.end_datetime with
      | none => rw [he] at h3; exact absurd h3 (by simp)
      | some ed =>
        rw [he] at h3
        obtain rfl : _ = p := Option.some.inj h3
        exact ⟨strptime8_valid _ _ hs, strptime8_valid _ _ he⟩

/-- Counterexample to C9 as stated: `parse` accepts a filename whose
embedded start date is after its end date — no ordering is enforced. -/
theorem from_filename_order_counterexample :
    from_filename exampleNameRev =
      some ⟨"rcp26".data, 1, "tasmax".data, "day".data, ⟨1909, 11, 30⟩, ⟨1899, 12, 1⟩,
        exampleNameRev⟩ ∧
    ¬(dateKey ⟨1909, 11, 30⟩ ≤ dateKey ⟨1899, 12, 1⟩) := by
  exact ⟨by decide, by decide⟩

/-- Witness for the amended C9 at the spec's example filename. -/
theorem from_filename_valid_dates_witness :
    from_filename exampleName = some
      ⟨"rcp26".data, 1, "tasmax".data, "day".data, ⟨1899, 12, 1⟩, ⟨1909, 11, 30⟩, exampleName⟩ ∧
    ValidDate (Datetime.mk 1899 12 1) ∧ ValidDate (Datetime.mk 1909 11 30) :=
  ⟨by decide, from_filename_valid_dates exampleName
    ⟨"rcp26".data, 1, "tasmax".data, "day".data, ⟨1899, 12, 1⟩, ⟨1909, 11, 30⟩, exampleName⟩
    (by decide)⟩

/-! ### C2: when parsing fails -/

/-- C2 (amended): `Parts.from_filename` fails exactly when the
start-anchored `_xpr` pattern fails on the basename or one of the two
8-digit tokens it extracted is not a valid calendar date.  Because
`re.match` leaves the end of the string unanchored and `.nc` begins
with the dot wildcard, a basename that fails the spec's fully delimited
grammar can still parse — see the counterexample. -/
theorem from_filename_none_iff (f : List Char) :
    from_filename f = none ↔
      (xprMatch (basename f) = none ∨
        ∃ g, xprMatch (basename f) = some g ∧
          (strptime8 g.start_datetime = none ∨ strptime8 g.end_datetime = none)) := by
  rw [from_filename_eq]
  cases hg : xprMatch (basename f) with
  | none => simp
  | some g =>
    simp only [Option.some_bind]
    cases hs : strptime8 g.start_datetime with
    | none => simp [hs]
    | some sd =>
      simp only [Option.some_bind]
      cases he : strptime8 g.end_datetime with
      | none => simp [he]
      | some ed => simp [hs, he]

/-- Counterexample to C2 as stated: a path whose basename does not
match the fully delimited spec grammar (trailing characters after
`.nc`) is nevertheless parsed successfully. -/
theorem from_filename_trailing_counterexample :
    specGrammarFull (basename exampleNameExtra) = false ∧
    from_filename exampleNameExtra =
      some ⟨"rcp26".data, 1, "tasmax".data, "day".data, ⟨1899, 12, 1⟩, ⟨1909, 11, 30⟩,
        exampleNameExtra⟩ := by
  exact ⟨by decide, by decide⟩

/-! ### C1: the parser recovers every grammar-embedded token

Completeness lemmas for the combinators: `litM_append` runs a literal
over its own text, `litM_cons_ne` fails it on a head mismatch,
`repM_exact` runs a counted class over an exact-length run, and
`matchPlus_none` / `matchPlus_some` characterise the greedy `+` when
the input splits as `capture ++ extension ++ rest` with the
continuation failing on every longer capture. -/

theorem litM_append (l cs : List Char) (k : List Char → Option α) :
    litM l k (l ++ cs) = k cs := by
  induction l with
  | nil => rfl
  | cons a l ih => simp [litM, ih]

theorem litM_cons_ne (d : Char) (l cs : List Char) (k : List Char → Option α)
    (h : cs.head? ≠ some d) : litM (d :: l) k cs = none := by
  cases cs with
  | nil => rfl
  | cons c cs' =>
    have hcd : ¬(d = c) := fun he => h (by simp [he])
    simp [litM, hcd]

theorem repM_exact (p : Char → Bool) (cs : List Char) :
    ∀ (rest : List Char) (k : List Char → List Char → Option α), cs.all p = true →
      repM p cs.length k (cs ++ rest) = k cs rest := by
  induction cs with
  | nil => intro rest k _; rfl
  | cons c cs' ih =>
    intro rest k hall
    simp only [List.all_cons, Bool.and_eq_true] at hall
    simp only [List.length_cons, List.cons_append, repM, hall.1, if_true]
    exact ih rest (fun g r => k (c :: g) r) hall.2

theorem matchPlus_none (p : Char → Bool) (e : List Char) :
    ∀ (rest : List Char) (k : List Char → List Char → Option α),
      e.all p = true →
      (∀ c, rest.head? = some c → p c = false) →
      (∀ j, 1 ≤ j → j ≤ e.length → k (e.take j) (e.drop j ++ rest) = none) →
      matchPlus p k (e ++ rest) = none := by
  induction e with
  | nil =>
    intro rest k _ hrest _
    cases rest with
    | nil => rfl
    | cons c cs => simp [matchPlus, hrest c rfl]
  | cons c e' ih =>
    intro rest k he hrest hk
    simp only [List.all_cons, Bool.and_eq_true] at he
    have hinner : matchPlus p (fun g r => k (c :: g) r) (e' ++ rest) = none := by
      refine ih rest (fun g r => k (c :: g) r) he.2 hrest ?_
      intro j hj1 hj2
      exact hk (j + 1) (by omega) (by simp only [List.length_cons]; omega)
    simp only [List.cons_append, matchPlus, he.1, if_true, List.append_eq, hinner]
    exact hk 1 (by omega) (by simp only [List.length_cons]; omega)

theorem matchPlus_some (p : Char → Bool) (g : List Char) :
    ∀ (e rest : List Char) (k : List Char → List Char → Option α) (x : α),
      g ≠ [] → g.all p = true → e.all p = true →
      (∀ c, rest.head? = some c → p c = false) →
      (∀ j, 1 ≤ j → j ≤ e.length → k (g ++ e.take j) (e.drop j ++ rest) = none) →
      k g (e ++ rest) = some x →
      matchPlus p k (g ++ (e ++ rest)) = some x := by
  induction g with
  | nil => intro e rest k x hg _ _ _ _ _; exact absurd rfl hg
  | cons c g' ih =>
    intro e rest k x _ hga he hrest hk hsucc
    simp only [List.all_cons, Bool.and_eq_true] at hga
    rcases eq_or_ne g' [] with rfl | hg'
    · have hinner : matchPlus p (fun gg rr => k (c :: gg) rr) (e ++ rest) = none := by
        refine matchPlus_none p e rest (fun gg rr => k (c :: gg) rr) he hrest ?_
        intro j hj1 hj2
        exact hk j hj1 hj2
      simp only [List.cons_append, List.nil_append, matchPlus, hga.1, if_true, List.append_eq]
      rw [hinner]
      exact hsucc
    · have hinner : matchPlus p (fun gg rr => k (c :: gg) rr) (g' ++ (e ++ rest)) = some x := by
        refine ih e rest (fun gg rr => k (c :: gg) rr) x hg' hga.2 he hrest ?_ hsucc
        intro j hj1 hj2
        exact hk j hj1 hj2
      simp only [List.cons_append, matchPlus, hga.1, if_true, List.append_eq]
      rw [hinner]

theorem head_drop_ne (d : Char) (e rest : List Char)
    (he : ∀ c ∈ e.drop 1, c ≠ d) (hr : rest.head? ≠ some d)
    (j : Nat) (hj : 1 ≤ j) : (e.drop j ++ rest).head? ≠ some d := by
  cases hc : e.drop j with
  | nil => simpa [hc] using hr
  | cons c t =>
    have h1 : c ∈ e.drop j := by rw [hc]; exact List.mem_cons_self _ _
    have h2 : (e.drop 1).drop (j - 1) = e.drop j := by
      rw [List.drop_drop]
      congr 1
      omega
    rw [← h2] at h1
    have := he c (List.mem_of_mem_drop h1)
    simp [hc, this]

theorem strptime8_shape (cs : List Char) (t : Datetime) (h : strptime8 cs = some t) :
    cs.length = 8 ∧ cs.all isDigit = true := by
  unfold strptime8 at h
  split at h
  next y1 y2 y3 y4 m1 m2 d1 d2 =>
    split at h
    next hdig => exact ⟨rfl, hdig⟩
    next => exact absurd h (by simp)
  next => exact absurd h (by simp)

theorem isWord_ne_slash (c : Char) (h : isWord c = true) : c ≠ '/' := by
  intro he
  rw [he] at h
  exact absurd h (by decide)

theorem isDigit_ne_aux (c : Char) (h : isDigit c = true) : c ≠ '_' ∧ c ≠ '/' := by
  constructor <;> intro he <;> rw [he] at h <;> exact absurd h (by decide)

theorem splitSlash_ne_nil (cs : List Char) : splitSlash cs ≠ [] := by
  cases cs with
  | nil => simp [splitSlash]
  | cons c cs' =>
    simp only [splitSlash]
    split
    · simp
    · split <;> simp

theorem splitSlash_no_slash (cs : List Char) (h : ∀ c ∈ cs, c ≠ '/') :
    splitSlash cs = [cs] := by
  induction cs with
  | nil => rfl
  | cons c cs' ih =>
    have hih := ih (fun a ha => h a (List.mem_cons_of_mem _ ha))
    have hc : ¬(c = '/') := h c (List.mem_cons_self _ _)
    simp [splitSlash, hih, hc]

theorem splitSlash_append (xs ys : List Char) :
    splitSlash (xs ++ '/' :: ys) = splitSlash xs ++ splitSlash ys := by
  induction xs with
  | nil =>
    obtain ⟨a, t, h⟩ : ∃ a t, splitSlash ys = a :: t := by
      cases h : splitSlash ys with
      | nil => exact absurd h (splitSlash_ne_nil ys)
      | cons a t => exact ⟨a, t, rfl⟩
    simp [splitSlash, h]
  | cons c xs' ih =>
    obtain ⟨b, u, hbu⟩ : ∃ b u, splitSlash xs' = b :: u := by
      cases h : splitSlash xs' with
      | nil => exact absurd h (splitSlash_ne_nil xs')
      | cons b u => exact ⟨b, u, rfl⟩
    simp only [List.cons_append, splitSlash, List.append_eq, ih, hbu]
    split <;> simp

theorem basename_concat (dir name : List Char)
    (hdir : dir = [] ∨ ∃ d', dir = d' ++ ['/'])
    (hname : ∀ c ∈ name, c ≠ '/') (h1 : name ≠ []) (h2 : name ≠ ['.']) :
    basename (dir ++ name) = name := by
  rcases hdir with rfl | ⟨d', rfl⟩
  · rw [List.nil_append]
    simp only [basename]
    rw [splitSlash_no_slash name hname]
    simp [h1, h2]
  · rw [show (d' ++ ['/']) ++ name = d' ++ '/' :: name from by rw [List.append_assoc]; rfl]
    simp only [basename]
    rw [splitSlash_append d' name, splitSlash_no_slash name hname, List.filter_append]
    simp [h1, h2]

/-- Once the capture has run past the scenario token into the
`_land` prefix of the grid literal, the rest of the pattern can no
longer match: after the underscore the greedy word-run captures at most
`land`, and no suffix of `land-…` starts with the literal underscore. -/
theorem kVar_after_sep (v' rest₂ : List Char) :
    kVar v' ('_' :: ("land".data ++ '-' :: rest₂)) = none := by
  show litM ['_'] (matchPlus isWord (kScen v')) ('_' :: ("land".data ++ '-' :: rest₂)) = none
  rw [show ('_' :: ("land".data ++ '-' :: rest₂)) =
    ['_'] ++ ("land".data ++ '-' :: rest₂) from rfl]
  rw [litM_append]
  refine matchPlus_none isWord "land".data ('-' :: rest₂) (kScen v') (by decide) ?_ ?_
  · intro c hc
    rw [← Option.some.inj hc]
    decide
  · intro j hj1 hj2
    have hh := head_drop_ne '_' "land".data ('-' :: rest₂) (by decide)
      (by intro hcon; exact absurd (Option.some.inj hcon) (by decide)) j hj1
    show litM litGrid (matchPlus isDigit (kMem v' ("land".data.take j)))
      ("land".data.drop j ++ '-' :: rest₂) = none
    rw [show litGrid = '_' :: "land-gcm_global_60km_".data from rfl]
    exact litM_cons_ne '_' _ _ _ hh

/-- Every capture of the variable group that extends past its
underscore separator makes the rest of the pattern fail, as long as the
scenario token itself contains no underscore. -/
theorem kVar_obl (s : List Char) (hs : ∀ c ∈ s, c ≠ '_') (rest₂ : List Char) :
    ∀ (j : Nat) (g' : List Char),
      kVar g' ((s ++ '_' :: "land".data).drop j ++ '-' :: rest₂) = none := by
  induction s with
  | nil =>
    intro j g'
    match j with
    | 0 => exact kVar_after_sep g' rest₂
    | (j' + 1) =>
      have hh := head_drop_ne '_' ('_' :: "land".data) ('-' :: rest₂) (by decide)
        (by intro hcon; exact absurd (Option.some.inj hcon) (by decide)) (j' + 1) (by omega)
      exact litM_cons_ne '_' [] _ _ hh
  | cons a s' ih =>
    intro j g'
    match j with
    | 0 =>
      have ha := hs a (List.mem_cons_self _ _)
      exact litM_cons_ne '_' [] _ _ (by intro hcon; exact absurd (Option.some.inj hcon) ha)
    | (j' + 1) =>
      exact ih (fun c hc => hs c (List.mem_cons_of_mem _ hc)) j' g'

/-- C1: for every path whose basename is assembled from the grammar's
tokens — alphanumeric variable and scenario tokens (no underscore), a
nonempty digit run for the member id, an underscore-free resolution
token, and two 8-digit date tokens that `strptime` accepts —
`from_filename` recovers exactly the embedded scenario, member id (as
an integer), variable, resolution and start/end dates, with the same
result whether or not a directory prefix precedes the basename. -/
theorem parse_recovers (dir v s mm r d1 d2 : List Char) (D1 D2 : Datetime)
    (hdir : dir = [] ∨ ∃ d', dir = d' ++ ['/'])
    (hv : v ≠ [] ∧ ∀ c ∈ v, isWord c = true ∧ c ≠ '_')
    (hs : s ≠ [] ∧ ∀ c ∈ s, isWord c = true ∧ c ≠ '_')
    (hm : mm ≠ [] ∧ ∀ c ∈ mm, isDigit c = true)
    (hr : r ≠ [] ∧ ∀ c ∈ r, c ≠ '_' ∧ c ≠ '/')
    (hd1 : strptime8 d1 = some D1) (hd2 : strptime8 d2 = some D2) :
    from_filename (dir ++
        (v ++ '_' :: s ++ litGrid ++ mm ++ '_' :: r ++ '_' :: d1 ++ '-' :: d2 ++ ".nc".data)) =
      some ⟨s, charsVal mm, v, r, D1, D2,
        v ++ '_' :: s ++ litGrid ++ mm ++ '_' :: r ++ '_' :: d1 ++ '-' :: d2 ++ ".nc".data⟩ := by
  obtain ⟨hv1, hv2⟩ := hv
  obtain ⟨hs1, hs2⟩ := hs
  obtain ⟨hm1, hm2⟩ := hm
  obtain ⟨hr1, hr2⟩ := hr
  obtain ⟨hlen1, hdig1⟩ := strptime8_shape d1 D1 hd1
  obtain ⟨hlen2, hdig2⟩ := strptime8_shape d2 D2 hd2
  set name := v ++ '_' :: s ++ litGrid ++ mm ++ '_' :: r ++ '_' :: d1 ++ '-' :: d2 ++ ".nc".data
    with hname_def
  have hdig1m : ∀ c ∈ d1, isDigit c = true := List.all_eq_true.mp hdig1
  have hdig2m : ∀ c ∈ d2, isDigit c = true := List.all_eq_true.mp hdig2
  have hlit : ∀ c ∈ litGrid, c ≠ '/' := by decide
  have hnc : ∀ c ∈ ".nc".data, c ≠ '/' := by decide
  have hslash : ∀ c ∈ name, c ≠ '/' := by
    intro c hc
    rw [hname_def] at hc
    simp only [List.mem_append, List.mem_cons] at hc
    rcases hc with ((((((h | h | h) | h) | h) | h | h) | h | h) | h | h) | h
    · exact isWord_ne_slash c (hv2 c h).1
    · subst h; decide
    · exact isWord_ne_slash c (hs2 c h).1
    · exact hlit c h
    · exact (isDigit_ne_aux c (hm2 c h)).2
    · subst h; decide
    · exact (hr2 c h).2
    · subst h; decide
    · exact (isDigit_ne_aux c (hdig1m c h)).2
    · subst h; decide
    · exact (isDigit_ne_aux c (hdig2m c h)).2
    · rcases h with h | h | h | h
      · subst h; decide
      · subst h; decide
      · subst h; decide
      · exact absurd h (by simp)
  have hne1 : name ≠ [] := by
    rw [hname_def]
    intro hcon
    simp only [List.append_eq_nil] at hcon
    exact absurd hcon.2 (by decide)
  have hne2 : name ≠ ['.'] := by
    intro hcon
    have hlcon : name.length = 1 := by rw [hcon]; rfl
    rw [hname_def] at hlcon
    simp only [List.length_append, List.length_cons, hlen1, hlen2,
      show litGrid.length = 22 from rfl, show (".nc".data).length = 3 from rfl] at hlcon
    omega
  have hb : basename (dir ++ name) = name := basename_concat dir name hdir hslash hne1 hne2
  have hvall : v.all isWord = true := List.all_eq_true.mpr (fun c hc => (hv2 c hc).1)
  have hsall : s.all isWord = true := List.all_eq_true.mpr (fun c hc => (hs2 c hc).1)
  have hmall : mm.all isDigit = true := List.all_eq_true.mpr hm2
  have hrall : r.all notUnderscore = true := by
    refine List.all_eq_true.mpr (fun c hc => ?_)
    unfold notUnderscore
    simp [(hr2 c hc).1]
  have hD2e : kD2 v s mm r d1 (d2 ++ ".nc".data) = some ⟨v, s, mm, r, d1, d2⟩ := by
    show repM isDigit 8 (fun g => kAfterD2 v s mm r d1 g) (d2 ++ ".nc".data) = _
    rw [hlen2.symm, repM_exact isDigit d2 (".nc".data) (fun g => kAfterD2 v s mm r d1 g) hdig2]
    rfl
  have hD1e : kD1 v s mm r (d1 ++ '-' :: (d2 ++ ".nc".data)) = some ⟨v, s, mm, r, d1, d2⟩ := by
    show repM isDigit 8 (fun g => litM ['-'] (kD2 v s mm r g)) (d1 ++ '-' :: (d2 ++ ".nc".data)) = _
    rw [hlen1.symm,
      repM_exact isDigit d1 ('-' :: (d2 ++ ".nc".data)) (fun g => litM ['-'] (kD2 v s mm r g)) hdig1]
    show litM ['-'] (kD2 v s mm r d1) (['-'] ++ (d2 ++ ".nc".data)) = _
    rw [litM_append]
    exact hD2e
  have hRese : matchPlus notUnderscore (kRes v s mm)
      (r ++ ('_' :: (d1 ++ '-' :: (d2 ++ ".nc".data)))) = some ⟨v, s, mm, r, d1, d2⟩ := by
    have hsucc : kRes v s mm r ('_' :: (d1 ++ '-' :: (d2 ++ ".nc".data))) =
        some ⟨v, s, mm, r, d1, d2⟩ := by
      show litM ['_'] (kD1 v s mm r) (['_'] ++ (d1 ++ '-' :: (d2 ++ ".nc".data))) = _
      rw [litM_append]
      exact hD1e
    exact matchPlus_some notUnderscore r [] ('_' :: (d1 ++ '-' :: (d2 ++ ".nc".data)))
      (kRes v s mm) ⟨v, s, mm, r, d1, d2⟩ hr1 hrall rfl
      (fun c hc => by rw [← Option.some.inj hc]; decide)
      (fun j hj1 hj2 => absurd (le_trans hj1 hj2) (by decide))
      hsucc
  have hMeme : matchPlus isDigit (kMem v s)
      (mm ++ ('_' :: (r ++ '_' :: (d1 ++ '-' :: (d2 ++ ".nc".data))))) =
      some ⟨v, s, mm, r, d1, d2⟩ := by
    have hsucc : kMem v s mm ('_' :: (r ++ '_' :: (d1 ++ '-' :: (d2 ++ ".nc".data)))) =
        some ⟨v, s, mm, r, d1, d2⟩ := by
      show litM ['_'] (matchPlus notUnderscore (kRes v s mm))
        (['_'] ++ (r ++ '_' :: (d1 ++ '-' :: (d2 ++ ".nc".data)))) = _
      rw [litM_append]
      exact hRese
    exact matchPlus_some isDigit mm [] ('_' :: (r ++ '_' :: (d1 ++ '-' :: (d2 ++ ".nc".data))))
      (kMem v s) ⟨v, s, mm, r, d1, d2⟩ hm1 hmall rfl
      (fun c hc => by rw [← Option.some.inj hc]; decide)
      (fun j hj1 hj2 => absurd (le_trans hj1 hj2) (by decide))
      hsucc
  have hScene : matchPlus isWord (kScen v)
      (s ++ (('_' :: "land".data) ++ '-' ::
        ("gcm_global_60km_".data ++ (mm ++ ('_' :: (r ++ '_' :: (d1 ++ '-' :: (d2 ++ ".nc".data)))))))) =
      some ⟨v, s, mm, r, d1, d2⟩ := by
    have hsucc : kScen v s (('_' :: "land".data) ++ '-' ::
        ("gcm_global_60km_".data ++ (mm ++ ('_' :: (r ++ '_' :: (d1 ++ '-' :: (d2 ++ ".nc".data))))))) =
        some ⟨v, s, mm, r, d1, d2⟩ := by
      show litM litGrid (matchPlus isDigit (kMem v s))
        (litGrid ++ (mm ++ ('_' :: (r ++ '_' :: (d1 ++ '-' :: (d2 ++ ".nc".data)))))) = _
      rw [litM_append]
      exact hMeme
    refine matchPlus_some isWord s ('_' :: "land".data)
      ('-' :: ("gcm_global_60km_".data ++ (mm ++ ('_' :: (r ++ '_' :: (d1 ++ '-' :: (d2 ++ ".nc".data)))))))
      (kScen v) ⟨v, s, mm, r, d1, d2⟩ hs1 hsall (by decide)
      (fun c hc => by rw [← Option.some.inj hc]; decide) ?_ hsucc
    intro j hj1 hj2
    have hh := head_drop_ne '_' ('_' :: "land".data)
      ('-' :: ("gcm_global_60km_".data ++ (mm ++ ('_' :: (r ++ '_' :: (d1 ++ '-' :: (d2 ++ ".nc".data)))))))
      (by decide) (by intro hcon; exact absurd (Option.some.inj hcon) (by decide)) j hj1
    show litM litGrid (matchPlus isDigit (kMem v (s ++ List.take j ('_' :: "land".data))))
      (List.drop j ('_' :: "land".data) ++ '-' ::
        ("gcm_global_60km_".data ++ (mm ++ ('_' :: (r ++ '_' :: (d1 ++ '-' :: (d2 ++ ".nc".data))))))) = none
    rw [show litGrid = '_' :: "land-gcm_global_60km_".data from rfl]
    exact litM_cons_ne '_' _ _ _ hh
  have heall : (('_' :: (s ++ '_' :: "land".data)).all isWord) = true := by
    simp only [List.all_cons, List.all_append, Bool.and_eq_true]
    exact ⟨by decide, hsall, by decide⟩
  have hx : xprMatch name = some ⟨v, s, mm, r, d1, d2⟩ := by
    have hshape : name = v ++ (('_' :: (s ++ '_' :: "land".data)) ++ ('-' ::
        ("gcm_global_60km_".data ++ (mm ++ ('_' :: (r ++ '_' :: (d1 ++ '-' :: (d2 ++ ".nc".data)))))))) := by
      rw [hname_def]
      rw [show litGrid = ('_' :: "land".data) ++ '-' :: "gcm_global_60km_".data from rfl]
      simp [List.append_assoc]
    rw [hshape]
    refine matchPlus_some isWord v ('_' :: (s ++ '_' :: "land".data))
      ('-' :: ("gcm_global_60km_".data ++ (mm ++ ('_' :: (r ++ '_' :: (d1 ++ '-' :: (d2 ++ ".nc".data)))))))
      kVar ⟨v, s, mm, r, d1, d2⟩ hv1 hvall heall
      (fun c hc => by rw [← Option.some.inj hc]; decide) ?_ ?_
    · intro j hj1 hj2
      obtain ⟨j', rfl⟩ : ∃ j', j = j' + 1 := ⟨j - 1, by omega⟩
      exact kVar_obl s (fun c hc => (hs2 c hc).2)
        ("gcm_global_60km_".data ++ (mm ++ ('_' :: (r ++ '_' :: (d1 ++ '-' :: (d2 ++ ".nc".data)))))) j' _
    · show litM ['_'] (matchPlus isWord (kScen v))
        (['_'] ++ ((s ++ '_' :: "land".data) ++ '-' ::
          ("gcm_global_60km_".data ++ (mm ++ ('_' :: (r ++ '_' :: (d1 ++ '-' :: (d2 ++ ".nc".data)))))))) = _
      rw [litM_append, List.append_assoc]
      exact hScene
  rw [from_filename_eq, hb, hx]
  simp only [Option.some_bind]
  rw [hd1]
  simp only [Option.some_bind]
  rw [hd2]
  simp only [Option.some_bind]

/-- Witness for C1: the spec's example filename under a directory
prefix yields scenario `rcp26`, member `1`, variable `tasmax`,
resolution `day`, start 1899-12-01 and end 1909-11-30. -/
theorem parse_recovers_witness :
    from_filename ("data/".data ++
        ("tasmax".data ++ '_' :: "rcp26".data ++ litGrid ++ "01".data ++ '_' :: "day".data ++
          '_' :: "18991201".data ++ '-' :: "19091130".data ++ ".nc".data)) =
      some ⟨"rcp26".data, 1, "tasmax".data, "day".data, ⟨1899, 12, 1⟩, ⟨1909, 11, 30⟩,
        "tasmax".data ++ '_' :: "rcp26".data ++ litGrid ++ "01".data ++ '_' :: "day".data ++
          '_' :: "18991201".data ++ '-' :: "19091130".data ++ ".nc".data⟩ :=
  parse_recovers "data/".data "tasmax".data "rcp26".data "01".data "day".data
    "18991201".data "19091130".data ⟨1899, 12, 1⟩ ⟨1909, 11, 30⟩
    (Or.inr ⟨"data".data, by decide⟩) ⟨by decide, by decide⟩ ⟨by decide, by decide⟩
    ⟨by decide, by decide⟩ ⟨by decide, by decide⟩ (by decide) (by decide)

end UKCP18
